import Mathlib

/-!
# rcswitch-avr: a shallow embedding of `RCSwitch.c` / `RCSwitch.h`

The embedding fixes the data model of the AVR target the library is written
for: `int` and `unsigned int` are 16 bits wide, `long` is 32 bits wide,
`uint16_t` is `unsigned int` and `uint8_t` is promoted to `int` in
expressions.  Machine integers are natural numbers (or integers) with the
reductions modulo `2^16` / `2^8` written out where the C code can wrap; the
16-bit value of `x - 1` is written `(65535 + x) % 65536`.

The global variables of `RCSwitch.h` are the fields of `State`.  A function
of the C file that writes globals is a function `State → ... → State`.
The waveform on the output pin is recorded in the field `wave`: every call of
`delay_us` appends the value the output port holds while the delay runs,
together with the argument of the call.
-/

namespace RCSwitch

/-! ## Data model (`RCSwitch.h`) -/

/-- Number of maximum high/low changes per packet (`RCSWITCH_MAX_CHANGES`). -/
def RCSWITCH_MAX_CHANGES : Nat := 67

/-- Description of a single pulse (`struct HighLow`): two `uint16_t` factors. -/
structure HighLow where
  high : Nat
  low : Nat
deriving DecidableEq, Repr

/-- A protocol (`struct Protocol`): base pulse length in microseconds, the
three pulse descriptions and the inversion flag. -/
structure Protocol where
  pulseLength : Nat
  syncFactor : HighLow
  zero : HighLow
  one : HighLow
  invertedSignal : Bool
deriving DecidableEq, Repr

/-- One stretch of the output waveform: the value of the output port register
while a call `delay_us(us)` runs. -/
structure Hold where
  port : Nat
  us : Nat
deriving DecidableEq, Repr

/-- The global variables of `RCSwitch.h`.  `nPort` is the value of the
register `*nPort`; `timings` is the array of `RCSWITCH_MAX_CHANGES` slots;
`wave` is the record of the emitted waveform. -/
structure State where
  protocol : Protocol
  nReceiveTolerance : Nat
  nTransmitterPin : Nat
  nPort : Nat
  nRepeatTransmit : Nat
  nReceivedValue : Int
  nReceivedBitlength : Nat
  nReceivedDelay : Nat
  nReceivedProtocol : Nat
  timings : List Nat
  wave : List Hold
deriving DecidableEq, Repr

/-- The separation limit `nSeparationLimit` of `RCSwitch.h`. -/
def nSeparationLimit : Nat := 4300

/-! ## Protocol table and configuration (`RCSwitch.c`, lines 60-102) -/

/-- The table `proto[]` of the six built-in protocols. -/
def proto : List Protocol :=
  [ ⟨350, ⟨1, 31⟩, ⟨1, 3⟩, ⟨3, 1⟩, false⟩,
    ⟨650, ⟨1, 10⟩, ⟨1, 2⟩, ⟨2, 1⟩, false⟩,
    ⟨100, ⟨30, 71⟩, ⟨4, 11⟩, ⟨9, 6⟩, false⟩,
    ⟨380, ⟨1, 6⟩, ⟨1, 3⟩, ⟨3, 1⟩, false⟩,
    ⟨500, ⟨6, 14⟩, ⟨1, 2⟩, ⟨2, 1⟩, false⟩,
    ⟨450, ⟨23, 1⟩, ⟨1, 2⟩, ⟨2, 1⟩, true⟩ ]

/-- The enumerator `numProto = sizeof(proto) / sizeof(proto[0])`. -/
def numProto : Nat := proto.length

/-- Table entry `proto[k]` for an index inside the table; the default value is
only a filler for `getD` and is never returned for `k < numProto`. -/
def protoAt (k : Nat) : Protocol :=
  proto.getD k ⟨0, ⟨0, 0⟩, ⟨0, 0⟩, ⟨0, 0⟩, false⟩

/-- The function `setProtocol(uint16_t nProtocol)`. -/
def setProtocol (s : State) (nProtocol : Nat) : State :=
  let nProtocol := if nProtocol < 1 ∨ nProtocol > numProto then 1 else nProtocol
  { s with protocol := protoAt (nProtocol - 1) }

/-- The function `enableTransmit(port, pin)`: `port` is the current value of
the register the pointer argument designates, `pin` is a `uint8_t`. -/
def enableTransmit (s : State) (port pin : Nat) : State :=
  let s := setProtocol s 1
  { s with nRepeatTransmit := 10, nTransmitterPin := pin % 256, nPort := port }

/-- The function `disableTransmit()`: the assignment `nTransmitterPin = -1`
to a `uint8_t` variable stores `-1` reduced modulo `2^8`. -/
def disableTransmit (s : State) : State :=
  { s with nTransmitterPin := ((-1 : Int) % 256).toNat }

/-! ## Pulse emitter (`RCSwitch.c`, lines 245-253) -/

/-- The expression `1<<nTransmitterPin`, an `int` of 16 bits (a shift count of
16 or more gives the all-zero pattern an AVR shift loop leaves). -/
def pinMask (pin : Nat) : Nat := (1 <<< pin) % 65536

/-- The statement `*nPort |= (1<<nTransmitterPin)` on an 8-bit register. -/
def setPin (port pin : Nat) : Nat := (port ||| pinMask pin) % 256

/-- The statement `*nPort &= ~(1<<nTransmitterPin)` on an 8-bit register; the
complement is taken on the 16 bits of an `int`. -/
def clearPin (port pin : Nat) : Nat := (port &&& (65535 ^^^ pinMask pin)) % 256

/-- The function `transmit(HighLow pulses)`.  Both products are `uint16_t`
products and are reduced modulo `2^16`. -/
def transmit (s : State) (pulses : HighLow) : State :=
  let high := setPin s.nPort s.nTransmitterPin
  let low := clearPin high s.nTransmitterPin
  { s with
    nPort := low
    wave := s.wave ++
      [Hold.mk high ((s.protocol.pulseLength * pulses.high) % 65536),
       Hold.mk low ((s.protocol.pulseLength * pulses.low) % 65536)] }

/-! ## Transmitter (`RCSwitch.c`, lines 107-181) -/

/-- The inner loop of `send`, `for (int8_t i = ...; i >= 0; i--)`, entered with
`i + 1 = n`: it tests `code & (1L << i)` for `i = n-1, ..., 0` (for a
`uint16_t` code the test is false for every `i` from 16 on). -/
def sendBits (code : Nat) : Nat → State → State
  | 0, s => s
  | i + 1, s =>
    sendBits code i
      (if code &&& (1 <<< i) ≠ 0 then transmit s s.protocol.one
       else transmit s s.protocol.zero)

/-- The initial value of the `int8_t` counter of the inner loop, plus one:
`length - 1` is computed on 16 bits without sign and converted to `int8_t`;
a negative start value means that the loop body never runs. -/
def sendStart (length : Nat) : Nat :=
  let i := ((65535 + length) % 65536) % 256
  if i < 128 then i + 1 else 0

/-- The outer loop of `send`, run `n` more times: the data bits (the inner
loop entered with `i + 1 = start`), then `transmit(protocol.syncFactor)`. -/
def sendFrames (code start : Nat) : Nat → State → State
  | 0, s => s
  | n + 1, s =>
    let s := sendBits code start s
    sendFrames code start n (transmit s s.protocol.syncFactor)

/-- The function `send(uint16_t code, uint16_t length)`.  The guard compares
the `uint8_t` variable `nTransmitterPin`, promoted to `int`, with `-1`. -/
def send (s : State) (code length : Nat) : State :=
  if (s.nTransmitterPin : Int) = -1 then s
  else sendFrames code (sendStart length) s.nRepeatTransmit s

/-- The loop of `sendTriState` over the characters up to the terminating NUL
(the end of the list stands for the terminator). -/
def sendTriStateLoop : List Char → Nat → Nat → Nat × Nat
  | [], code, length => (code, length)
  | c :: cs, code, length =>
    if c = Char.ofNat 0 then (code, length)
    else
      let code := (code <<< 2) % 65536
      let code :=
        if c = '0' then code
        else if c = 'F' then code ||| 1
        else if c = '1' then code ||| 3
        else code
      sendTriStateLoop cs code ((length + 2) % 65536)

/-- The function `sendTriState(const char* sCodeWord)`. -/
def sendTriState (s : State) (sCodeWord : List Char) : State :=
  let r := sendTriStateLoop sCodeWord 0 0
  send s r.1 r.2

/-- The loop of `sendBinary` over the characters up to the terminating NUL. -/
def sendBinaryLoop : List Char → Nat → Nat → Nat × Nat
  | [], code, length => (code, length)
  | c :: cs, code, length =>
    if c = Char.ofNat 0 then (code, length)
    else
      let code := (code <<< 1) % 65536
      let code := if c ≠ '0' then code ||| 1 else code
      sendBinaryLoop cs code ((length + 1) % 65536)

/-- The function `sendBinary(const char* sCodeWord)`. -/
def sendBinary (s : State) (sCodeWord : List Char) : State :=
  let r := sendBinaryLoop sCodeWord 0 0
  send s r.1 r.2

/-! ## Consumer interface (`RCSwitch.c`, lines 255-289) -/

/-- The function `enableReceive()`, as far as the globals of `RCSwitch.h` are
concerned (the interrupt and timer registers are not part of `State`). -/
def enableReceive (s : State) : State :=
  { s with
    nReceivedValue := 0
    nReceivedBitlength := 0
    nReceivedDelay := 0
    nReceivedProtocol := 0
    nReceiveTolerance := 60 }

/-- The function `available()`. -/
def available (s : State) : Bool := decide (s.nReceivedValue ≠ 0)

/-- The function `resetAvailable()`. -/
def resetAvailable (s : State) : State := { s with nReceivedValue := 0 }

/-! ## Protocol matcher (`RCSwitch.c`, lines 291-362) -/

/-- The helper `diff(uint16_t A, uint16_t B)`, `abs(A - B)`: the difference is
taken on 16 bits without sign, read as an `int` for `abs` and returned as
`uint16_t` (for the difference 32768, the `int` -32768, the result is 32768
again). -/
def diff (A B : Nat) : Nat :=
  let d := (65536 + A - B) % 65536
  if d < 32768 then d else 65536 - d

/-- Outcome of the decoding loop of `receiveProtocol`: a read outside the
array `timings` (undefined behaviour in C), the `return false` inside the
loop, or the end of the loop with the accumulated `code`. -/
inductive Scan where
  | fault
  | failed
  | decoded (code : Nat)
deriving DecidableEq, Repr

/-- The loop `for (uint16_t i = firstDataTiming; i < changeCount - 1; i += 2)`
of `receiveProtocol`; `bound` is the value of `changeCount - 1`.  When slot
`i + 1` lies outside the array, C reads it only after a comparison on slot `i`
has succeeded (`&&` evaluates its right operand lazily). -/
def receiveLoop (timings : List Nat) (pro : Protocol) (delay delayTolerance bound : Nat)
    (i code : Nat) : Scan :=
  if i < bound then
    if _h : i + 1 < RCSWITCH_MAX_CHANGES then
      match timings[i]?, timings[i + 1]? with
      | some t0, some t1 =>
        let code := (code <<< 1) % 65536
        if diff t0 ((delay * pro.zero.high) % 65536) < delayTolerance ∧
            diff t1 ((delay * pro.zero.low) % 65536) < delayTolerance then
          receiveLoop timings pro delay delayTolerance bound ((i + 2) % 65536) code
        else if diff t0 ((delay * pro.one.high) % 65536) < delayTolerance ∧
            diff t1 ((delay * pro.one.low) % 65536) < delayTolerance then
          receiveLoop timings pro delay delayTolerance bound ((i + 2) % 65536) (code ||| 1)
        else Scan.failed
      | _, _ => Scan.fault
    else if i < RCSWITCH_MAX_CHANGES then
      match timings[i]? with
      | some t0 =>
        if diff t0 ((delay * pro.zero.high) % 65536) < delayTolerance ∨
            diff t0 ((delay * pro.one.high) % 65536) < delayTolerance then Scan.fault
        else Scan.failed
      | none => Scan.fault
    else Scan.fault
  else Scan.decoded code
termination_by RCSWITCH_MAX_CHANGES - i
decreasing_by
  all_goals simp only [RCSWITCH_MAX_CHANGES] at *
  all_goals omega

/-- The function `receiveProtocol(p, changeCount)`.  The result is `none` when
the C function reads outside `proto` or `timings`; otherwise it is the
returned flag and the state of the globals on return.  The divisor
`syncLengthInPulses` is positive for every entry of `proto`. -/
def receiveProtocol (s : State) (p changeCount : Nat) : Option (Bool × State) :=
  match proto[(65535 + p) % 65536]?, s.timings[0]? with
  | some pro, some sync =>
    let syncLengthInPulses :=
      if pro.syncFactor.low > pro.syncFactor.high then pro.syncFactor.low
      else pro.syncFactor.high
    let delay := sync / syncLengthInPulses
    let delayTolerance := (delay * s.nReceiveTolerance) % 65536 / 100
    let firstDataTiming := if pro.invertedSignal then 2 else 1
    match receiveLoop s.timings pro delay delayTolerance ((65535 + changeCount) % 65536)
        firstDataTiming 0 with
    | Scan.fault => none
    | Scan.failed => some (false, s)
    | Scan.decoded code =>
      if changeCount > 7 then
        some (true,
          { s with
            nReceivedValue := (code : Int)
            nReceivedBitlength := ((65535 + changeCount) % 65536) / 2
            nReceivedDelay := delay
            nReceivedProtocol := p })
      else some (false, s)
  | _, _ => none

/-! ## Reference descriptions used in the statements -/

/-- The globals at program start: static storage is zero-initialised. -/
def powerOn : State :=
  { protocol := ⟨0, ⟨0, 0⟩, ⟨0, 0⟩, ⟨0, 0⟩, false⟩
    nReceiveTolerance := 0
    nTransmitterPin := 0
    nPort := 0
    nRepeatTransmit := 0
    nReceivedValue := 0
    nReceivedBitlength := 0
    nReceivedDelay := 0
    nReceivedProtocol := 0
    timings := List.replicate 67 0
    wave := [] }

/-- The pattern a data bit is sent with: `one` for a set bit, else `zero`. -/
def bitPattern (pro : Protocol) (b : Bool) : HighLow :=
  if b then pro.one else pro.zero

/-- One pulse on the output pin: the pin bit of the port set for
`pulseLength * high` microseconds, then cleared for `pulseLength * low`. -/
def pulse (pro : Protocol) (port pin : Nat) (hl : HighLow) : List Hold :=
  [Hold.mk (setPin port pin) ((pro.pulseLength * hl.high) % 65536),
   Hold.mk (clearPin (setPin port pin) pin) ((pro.pulseLength * hl.low) % 65536)]

/-- The bits `L - 1`, ..., `0` of `code`, most significant first. -/
def codeBits (code L : Nat) : List Bool :=
  (List.range L).map (fun k => code.testBit (L - 1 - k))

/-- One frame: `L` data pulses, the `k`-th one (counted from 0) carrying bit
`L - 1 - k` of `code`, followed by one sync pulse. -/
def frame (pro : Protocol) (port pin code L : Nat) : List Hold :=
  (codeBits code L).flatMap (fun b => pulse pro port pin (bitPattern pro b))
    ++ pulse pro port pin pro.syncFactor

/-- The value of a bit string read most significant bit first. -/
def bitsValue : List Bool → Nat
  | [] => 0
  | b :: bs => b.toNat * 2 ^ bs.length + bitsValue bs

/-- The two bits of a tri-state symbol: `0` is 00, `F` is 01, `1` is 11. -/
def triBits (c : Char) : List Bool :=
  if c = '0' then [false, false]
  else if c = 'F' then [false, true]
  else if c = '1' then [true, true]
  else []

/-- The bit string of a tri-state word, first symbol first. -/
def triStateBits (w : List Char) : List Bool := w.flatMap triBits

/-- A tri-state word of nine symbols: `1` followed by eight `0`. -/
def triWord9 : List Char := ['1', '0', '0', '0', '0', '0', '0', '0', '0']

/-- Evaluation form of `receiveLoop`: the same loop body, with the recursion
running on a step budget `n`.  The two agree whenever `n` is at least
`RCSWITCH_MAX_CHANGES - i` (theorem `receiveLoop_eq_steps`), which makes the
loop computable by unfolding on concrete buffers. -/
def receiveLoopSteps (timings : List Nat) (pro : Protocol) (delay delayTolerance bound : Nat) :
    Nat → Nat → Nat → Scan
  | 0, i, code => if i < bound then Scan.fault else Scan.decoded code
  | n + 1, i, code =>
    if i < bound then
      if i + 1 < RCSWITCH_MAX_CHANGES then
        match timings[i]?, timings[i + 1]? with
        | some t0, some t1 =>
          let code := (code <<< 1) % 65536
          if diff t0 ((delay * pro.zero.high) % 65536) < delayTolerance ∧
              diff t1 ((delay * pro.zero.low) % 65536) < delayTolerance then
            receiveLoopSteps timings pro delay delayTolerance bound n ((i + 2) % 65536) code
          else if diff t0 ((delay * pro.one.high) % 65536) < delayTolerance ∧
              diff t1 ((delay * pro.one.low) % 65536) < delayTolerance then
            receiveLoopSteps timings pro delay delayTolerance bound n ((i + 2) % 65536)
              (code ||| 1)
          else Scan.failed
        | _, _ => Scan.fault
      else if i < RCSWITCH_MAX_CHANGES then
        match timings[i]? with
        | some t0 =>
          if diff t0 ((delay * pro.zero.high) % 65536) < delayTolerance ∨
              diff t0 ((delay * pro.one.high) % 65536) < delayTolerance then Scan.fault
          else Scan.failed
        | none => Scan.fault
      else Scan.fault
    else Scan.decoded code

/-- The comparison of a pair of durations with a pulse description in the
loop body of `receiveProtocol`. -/
def pairMatches (delay delayTolerance : Nat) (hl : HighLow) (t0 t1 : Nat) : Prop :=
  diff t0 ((delay * hl.high) % 65536) < delayTolerance ∧
    diff t1 ((delay * hl.low) % 65536) < delayTolerance

instance (delay delayTolerance : Nat) (hl : HighLow) (t0 t1 : Nat) :
    Decidable (pairMatches delay delayTolerance hl t0 t1) := by
  unfold pairMatches
  infer_instance

/-- The bit the loop body of `receiveProtocol` assigns to a pair of durations:
0 when the pair matches the zero description, otherwise 1 when it matches the
one description, otherwise none (the `return false`). -/
def pairBit (pro : Protocol) (delay delayTolerance t0 t1 : Nat) : Option Bool :=
  if pairMatches delay delayTolerance pro.zero t0 t1 then some false
  else if pairMatches delay delayTolerance pro.one t0 t1 then some true
  else none

/-- The accumulation of decoded bits in the 16-bit variable `code`:
`code <<= 1`, then `code |= 1` for a one bit. -/
def pushBits (code : Nat) (bits : List Bool) : Nat :=
  bits.foldl (fun c b => ((c <<< 1) % 65536) ||| b.toNat) code

/-- The durations of the data pulses carrying `bits`: for each bit the
products `pulseLength * high` and `pulseLength * low` that `transmit` passes
to `delay_us`. -/
def dataSlots (pro : Protocol) (bits : List Bool) : List Nat :=
  bits.flatMap (fun b =>
    [(pro.pulseLength * (bitPattern pro b).high) % 65536,
     (pro.pulseLength * (bitPattern pro b).low) % 65536])

/-- The larger component of the sync description. -/
def syncMax (pro : Protocol) : Nat := max pro.syncFactor.high pro.syncFactor.low

/-- The smaller component of the sync description. -/
def syncMin (pro : Protocol) : Nat := min pro.syncFactor.high pro.syncFactor.low

/-- The index of the first data slot in a capture: 2 for an inverted
protocol, else 1. -/
def firstData (pro : Protocol) : Nat := if pro.invertedSignal then 2 else 1

/-- The jitter-free capture of one frame carrying the `L` low bits of `code`:
slot 0 holds the long sync duration; for an inverted protocol the short sync
duration follows; then the data slots; for a protocol that is not inverted
the short sync duration closes the capture.  It has `2 * L + 2` slots. -/
def capture (pro : Protocol) (code L : Nat) : List Nat :=
  [(pro.pulseLength * syncMax pro) % 65536]
    ++ (if pro.invertedSignal then [(pro.pulseLength * syncMin pro) % 65536] else [])
    ++ dataSlots pro (codeBits code L)
    ++ (if pro.invertedSignal then [] else [(pro.pulseLength * syncMin pro) % 65536])

/-- The receiver state after `enableReceive()` at program start, with the
timing buffer holding `timings`. -/
def receiverWith (timings : List Nat) : State :=
  { enableReceive powerOn with timings := timings }

/-- The bit string of a binary code word: `0` gives 0, any other character
gives 1. -/
def binaryBits (w : List Char) : List Bool := w.map (fun c => decide (c ≠ '0'))

/-- The jitter every data slot may carry without changing the decoded bit,
as an exclusive bound in microseconds: 60% of the pulse length (the
tolerance of `receiveProtocol`) in general, 40% of the pulse length when the
one and zero descriptions are a single unit apart, as in protocols 2, 5
and 6 (the deviation then stays at or below 40%). -/
def jitterBound (pro : Protocol) : Nat :=
  if pro.one.high = pro.zero.high + 1 then pro.pulseLength * 40 / 100 + 1
  else pro.pulseLength * 60 / 100

/-- A capture of the 3-bit frame of code 1 under protocol 2 in which the last
data pair `(1300, 650)` arrives as `(1000, 950)`, each slot 300 microseconds
away from its jitter-free duration. -/
def jitterCapture : List Nat :=
  [6500, 650, 1300, 650, 1300, 1000, 950, 650] ++ List.replicate 59 0

/-- A capture of the 3-bit frame of code 5 under protocol 2 in which every
data slot is 260 microseconds away from its jitter-free duration (40% of the
pulse length 650): the pairs `(1300, 650)`, `(650, 1300)`, `(1300, 650)`
arrive as `(1040, 910)`, `(910, 1040)`, `(1560, 390)`. -/
def jitteredCapture : List Nat :=
  [6500, 1040, 910, 910, 1040, 1560, 390, 650] ++ List.replicate 59 0

/-- A full buffer in which every pair of slots matches the zero description
of protocol 1: the sync duration 10850, then 33 pairs `(350, 1050)`. -/
def zeroPairsBuffer : List Nat :=
  10850 :: (List.replicate 33 [350, 1050]).flatten

/-! ## Busy-wait delay (`RCSwitch.c`, lines 189-240) -/

/-- The clock rates `delay_us` and the INT0 handler are compiled for
(`F_CPU == 16000000L` or `F_CPU == 8000000L`; any other value is rejected at
compile time). -/
inductive Clock where
  | mhz16
  | mhz8
deriving DecidableEq, Repr

/-- The left shift `us <<= 2` (16 MHz) or `us <<= 1` (8 MHz) of `delay_us`, on
16 bits. -/
def delayScale (clock : Clock) (us : Nat) : Nat :=
  match clock with
  | Clock.mhz16 => (us <<< 2) % 65536
  | Clock.mhz8 => (us <<< 1) % 65536

/-- The function `delay_us(uint16_t us)`: the value with which the busy-wait
loop is entered after the scaling and the subtraction of the call overhead,
or `none` when the function returns at once (`us <= 1`, resp. `us <= 2`). -/
def delay_us (clock : Clock) (us : Nat) : Option Nat :=
  match clock with
  | Clock.mhz16 =>
    if us ≤ 1 then none else some ((65536 + delayScale clock us - 5) % 65536)
  | Clock.mhz8 =>
    if us ≤ 2 then none else some ((65536 + delayScale clock us - 4) % 65536)

/-! ## Edge capture and decode coordinator (`RCSwitch.c`, lines 364-436) -/

/-- The state the INT0 handler works on: the globals of `RCSwitch.h`, the
static locals `changeCount` and `repeatCount` of the handler, and the global
`overflow` counted by the timer overflow handler. -/
structure Isr where
  globals : State
  changeCount : Nat
  repeatCount : Nat
  overflow : Nat
deriving DecidableEq, Repr

/-- What one run of the INT0 handler did: whether the gap test passed (the
repeat counter was incremented), whether the protocol loop was executed,
whether the overflow branch was taken, and the slot of `timings` the duration
was stored in. -/
structure EdgeLog where
  gap : Bool
  decoded : Bool
  overflowed : Bool
  slot : Nat
deriving DecidableEq, Repr

/-- The handler `ISR(TIMER0_OVF_vect)`: `overflow++` on 16 bits. -/
def TIMER0_OVF_vect (h : Isr) : Isr :=
  { h with overflow := (h.overflow + 1) % 65536 }

/-- The duration the INT0 handler computes from the timer value `TCNT0` and
the overflow count: `time * 16` plus `4096 * overflow` at 16 MHz, `time * 32`
plus `8192 * overflow` at 8 MHz, all on 16 bits. -/
def edgeDuration (clock : Clock) (time overflow : Nat) : Nat :=
  match clock with
  | Clock.mhz16 =>
    let duration := (time * 16) % 65536
    if overflow ≠ 0 then (duration + (4096 * overflow) % 65536) % 65536 else duration
  | Clock.mhz8 =>
    let duration := (time * 32) % 65536
    if overflow ≠ 0 then (duration + (8192 * overflow) % 65536) % 65536 else duration

/-- The protocol loop of the INT0 handler,
`for (i = 1; i <= numProto; i++) if (receiveProtocol(i, changeCount)) break;`,
entered at index `i` with `n = numProto + 1 - i` iterations to go.  The
result is `none` when a call of `receiveProtocol` reads outside its arrays. -/
def tryProtocols (changeCount : Nat) : Nat → Nat → State → Option State
  | 0, _, s => some s
  | n + 1, i, s =>
    match receiveProtocol s i changeCount with
    | none => none
    | some (true, s1) => some s1
    | some (false, s1) => tryProtocols changeCount n (i + 1) s1

/-- The gap test of the INT0 handler: `duration > nSeparationLimit` and
`diff(duration, timings[0]) < 200`. -/
def gapTest (h : Isr) (duration : Nat) : Bool :=
  decide (duration > nSeparationLimit) &&
    match h.globals.timings[0]? with
    | some t0 => decide (diff duration t0 < 200)
    | none => false

/-- The first part of the INT0 handler, the block
`if (duration > nSeparationLimit) { ... }`: the state after it, with the flag
telling whether the protocol loop was executed. -/
def gapPhase (h : Isr) (duration : Nat) : Option (Isr × Bool) :=
  if duration > nSeparationLimit then
    match h.globals.timings[0]? with
    | none => none
    | some t0 =>
      if diff duration t0 < 200 then
        let repeatCount := (h.repeatCount + 1) % 65536
        if repeatCount = 2 then
          match tryProtocols h.changeCount numProto 1 h.globals with
          | none => none
          | some g => some ({ h with globals := g, repeatCount := 0, changeCount := 0 }, true)
        else some ({ h with repeatCount := repeatCount, changeCount := 0 }, false)
      else some ({ h with changeCount := 0 }, false)
  else some (h, false)

/-- The second part of the INT0 handler: the overflow check
`if (changeCount >= RCSWITCH_MAX_CHANGES)` and the store
`timings[changeCount++] = duration`. -/
def storePhase (h : Isr) (duration : Nat) : Isr × Bool × Nat :=
  let overflowed := decide (h.changeCount ≥ RCSWITCH_MAX_CHANGES)
  let changeCount := if overflowed then 0 else h.changeCount
  let repeatCount := if overflowed then 0 else h.repeatCount
  ({ h with
      globals := { h.globals with timings := h.globals.timings.set changeCount duration }
      changeCount := (changeCount + 1) % 65536
      repeatCount := repeatCount },
    overflowed, changeCount)

/-- The INT0 handler from the computed `duration` on.  The result is `none`
when the handler reads outside an array. -/
def handleEdge (h : Isr) (duration : Nat) : Option (Isr × EdgeLog) :=
  match gapPhase h duration with
  | none => none
  | some (h1, decoded) =>
    let r := storePhase h1 duration
    some (r.1, { gap := gapTest h duration, decoded := decoded, overflowed := r.2.1,
                 slot := r.2.2 })

/-- The handler `ISR(INT0_vect)` for the timer value `TCNT0`: the duration is
computed, `overflow` is cleared, and the edge is handled. -/
def INT0_vect (clock : Clock) (h : Isr) (TCNT0 : Nat) : Option (Isr × EdgeLog) :=
  handleEdge { h with overflow := 0 } (edgeDuration clock TCNT0 h.overflow)

/-- The handler run on a sequence of edges, given by their durations, with
the record of what each run did. -/
def runEdges : Isr → List Nat → Option (Isr × List EdgeLog)
  | h, [] => some (h, [])
  | h, d :: ds =>
    match handleEdge h d with
    | none => none
    | some (h1, e) =>
      match runEdges h1 ds with
      | none => none
      | some (h2, es) => some (h2, e :: es)

/-- The handler state at program start over the globals `g`: write index 0,
repeat counter 0, no timer overflow pending. -/
def isrStart (g : State) : Isr :=
  { globals := g, changeCount := 0, repeatCount := 0, overflow := 0 }

/-- The states the handler can be in between two edges: the buffer has its 67
slots, the write index is at most 67, the repeat counter is 0 or 1, and the
repeat counter is 1 only after at least one duration has been stored. -/
def IsrInv (h : Isr) : Prop :=
  h.globals.timings.length = RCSWITCH_MAX_CHANGES ∧ h.changeCount ≤ RCSWITCH_MAX_CHANGES
    ∧ h.repeatCount ≤ 1 ∧ (h.repeatCount = 1 → 1 ≤ h.changeCount)

/-- The factors of the three pulse descriptions of a protocol. -/
def pairFactors (pro : Protocol) : List Nat :=
  [pro.syncFactor.high, pro.syncFactor.low, pro.zero.high, pro.zero.low, pro.one.high,
    pro.one.low]

/-- The factors of the two data descriptions of a protocol. -/
def dataFactors (pro : Protocol) : List Nat :=
  [pro.zero.high, pro.zero.low, pro.one.high, pro.one.low]

/-- The unit estimate `delay` of `receiveProtocol`: the sync duration divided
by the larger sync factor. -/
def unitEstimate (pro : Protocol) (sync : Nat) : Nat :=
  sync / (if pro.syncFactor.low > pro.syncFactor.high then pro.syncFactor.low
    else pro.syncFactor.high)

/-- The tolerance `delayTolerance` of `receiveProtocol`:
`delay * nReceiveTolerance / 100` with the product taken on 16 bits. -/
def toleranceOf (tolerance delay : Nat) : Nat := (delay * tolerance) % 65536 / 100

/-- The gap test in the words of the handler's comments: the duration is
above the separation limit and close in length to `timings[0]`, less than
200 microseconds away from it. -/
def closeGap (duration t0 : Nat) : Prop :=
  duration > nSeparationLimit ∧ duration < t0 + 200 ∧ t0 < duration + 200

instance (duration t0 : Nat) : Decidable (closeGap duration t0) := by
  unfold closeGap
  infer_instance

/-- The handler state after a first frame gap of 10050 microseconds has been
seen: repeat counter 1, slot 0 holding the gap, write index 1. -/
def gapSeen : Isr :=
  { globals := { powerOn with timings := powerOn.timings.set 0 10050 }
    changeCount := 1
    repeatCount := 1
    overflow := 0 }

/-- A capture under protocol 4 whose sync slot 6558 gives the unit estimate
1093; the three data pairs are exact zero pairs `(1093, 3279)`. -/
def wideUnitBuffer : List Nat :=
  [6558, 1093, 3279, 1093, 3279, 1093, 3279, 1093] ++ List.replicate 59 0

/-! ## Reference behaviour of the matcher -/

/-- The number of pairs of slots the loop of `receiveProtocol` consumes for
`changeCount = c`: the indices `first`, `first + 2`, ... below `c - 1`. -/
def pairCount (pro : Protocol) (c : Nat) : Nat := (c - firstData pro) / 2

/-- The pairs `(timings[i], timings[i+1])` for `i = first, first + 2, ...`,
`n` of them. -/
def consumedPairs (timings : List Nat) (first n : Nat) : List (Nat × Nat) :=
  (List.range n).map
    (fun k => (timings.getD (first + 2 * k) 0, timings.getD (first + 2 * k + 1) 0))

/-- A duration lies strictly within the tolerance of an expected duration. -/
def withinTolerance (tol t expected : Nat) : Prop :=
  t < expected + tol ∧ expected < t + tol

instance (tol t expected : Nat) : Decidable (withinTolerance tol t expected) := by
  unfold withinTolerance
  infer_instance

/-- A pair of durations matches a pulse description: both durations lie
strictly within the tolerance of `unit * high` and `unit * low`. -/
def matchesPair (unit tol : Nat) (hl : HighLow) (pr : Nat × Nat) : Prop :=
  withinTolerance tol pr.1 (unit * hl.high) ∧ withinTolerance tol pr.2 (unit * hl.low)

instance (unit tol : Nat) (hl : HighLow) (pr : Nat × Nat) :
    Decidable (matchesPair unit tol hl pr) := by
  unfold matchesPair
  infer_instance

/-- The bits of the reference behaviour: 0 for each pair matching the zero
description, 1 for each other pair. -/
def referenceBits (unit tol : Nat) (pro : Protocol) (pairs : List (Nat × Nat)) : List Bool :=
  pairs.map (fun pr => !decide (matchesPair unit tol pro.zero pr))

/-- A capture under protocol 1 with 17 data pairs: the sync duration
10850, one pair for the bit 1, sixteen pairs for the bit 0, and a closing
slot; 36 slots are in use (`changeCount = 36`). -/
def seventeenPairsBuffer : List Nat :=
  [10850, 1050, 350] ++ (List.replicate 16 [350, 1050]).flatten ++ [350]
    ++ List.replicate 31 0


/-- A buffer for protocol 6 (inverted) with 9 slots in use
(`changeCount = 9`): the long sync duration 10350, the short sync duration
450, three data pairs for the bits 0, 0, 1 and zeros from slot 8 on. -/
def oddCountBuffer : List Nat :=
  [10350, 450, 450, 900, 450, 900, 900, 450] ++ List.replicate 59 0

/-! ## Protocol identification -/

/-- The bit the loop body of `receiveProtocol` assigns under the table entry
`q`, with the tolerance 60, to a pair of durations when slot 0 holds the long
sync duration of a jitter-free capture of the table entry `P`. -/
def crossBit (q P : Protocol) (t0 t1 : Nat) : Option Bool :=
  pairBit q (unitEstimate q ((P.pulseLength * syncMax P) % 65536))
    (toleranceOf 60 (unitEstimate q ((P.pulseLength * syncMax P) % 65536))) t0 t1

end RCSwitch

/-! ## Theorems -/

namespace RCSwitch

set_option maxRecDepth 20000

/-- C9: after `setProtocol(n)` the active protocol is table entry `n` when
`1 ≤ n ≤ 6` and table entry 1 otherwise, and no other global changes; so
`setProtocol(0)` and `setProtocol(99)` leave the same state as
`setProtocol(1)`. -/
theorem setProtocol_fallback (s : State) (n : Nat) :
    some (setProtocol s n).protocol = (if 1 ≤ n ∧ n ≤ 6 then proto[n - 1]? else proto[0]?)
    ∧ setProtocol s n = { s with protocol := (setProtocol s n).protocol }
    ∧ setProtocol s 0 = setProtocol s 1
    ∧ setProtocol s 99 = setProtocol s 1 := by
  refine ⟨?_, rfl, rfl, rfl⟩
  by_cases h : 1 ≤ n ∧ n ≤ 6
  · obtain ⟨h1, h6⟩ := h
    interval_cases n <;> rfl
  · have hn : n < 1 ∨ n > numProto := by
      simp only [numProto, proto, List.length_cons, List.length_nil]
      omega
    simp only [setProtocol, if_pos hn, if_neg h]
    rfl

/-- C10: under the inverted protocol 6 on pin 4, `transmit` of the pattern
`{2, 1}` still sets the pin bit (port value 16) for 900 microseconds and then
clears it (port value 0) for 450 microseconds: the levels are not swapped. -/
theorem transmit_ignores_invertedSignal :
    (setProtocol (enableTransmit powerOn 0 4) 6).protocol.invertedSignal = true
    ∧ (transmit (setProtocol (enableTransmit powerOn 0 4) 6) ⟨2, 1⟩).wave
        = [Hold.mk 16 900, Hold.mk 0 450] := by
  decide

/-- C3: in the state left by `disableTransmit()` the pin variable holds 255,
the guard of `send` does not fire, and `send(5, 3)` with repeat count 10 calls
`transmit` 40 times (80 stretches of output are recorded). -/
theorem send_after_disableTransmit_emits :
    (disableTransmit (enableTransmit powerOn 0 4)).nTransmitterPin = 255
    ∧ (send (disableTransmit (enableTransmit powerOn 0 4)) 5 3).wave.length = 80
    ∧ send (disableTransmit (enableTransmit powerOn 0 4)) 5 3
        ≠ disableTransmit (enableTransmit powerOn 0 4) := by
  decide

/-! ### Output port and bit tests -/

theorem testBit_pinMask (pin i : Nat) :
    (pinMask pin).testBit i = (decide (i < 16) && decide (pin = i)) := by
  unfold pinMask
  rw [show (65536 : Nat) = 2 ^ 16 from rfl, Nat.testBit_mod_two_pow, Nat.one_shiftLeft,
    Nat.testBit_two_pow]

theorem testBit_65535 (i : Nat) : (65535 : Nat).testBit i = decide (i < 16) := by
  rw [show (65535 : Nat) = 2 ^ 16 - 1 from rfl, Nat.testBit_two_pow_sub_one]

/-- Setting the pin bit after a set/clear cycle gives the same port value as
setting it in the first place: every pulse of a transmission shows the same
two port values. -/
theorem setPin_clearPin_setPin (port pin : Nat) :
    setPin (clearPin (setPin port pin) pin) pin = setPin port pin := by
  apply Nat.eq_of_testBit_eq
  intro i
  simp only [setPin, clearPin, show (256 : Nat) = 2 ^ 8 from rfl, Nat.testBit_mod_two_pow,
    Nat.testBit_lor, Nat.testBit_land, Nat.testBit_xor, testBit_pinMask, testBit_65535]
  by_cases h8 : i < 8
  · have h16 : i < 16 := by omega
    by_cases hp : pin = i <;> cases hb : port.testBit i <;> simp [h8, h16, hp]
  · simp [h8]

theorem and_shiftLeft_ne_zero (code i : Nat) :
    (code &&& (1 <<< i) ≠ 0) ↔ code.testBit i = true := by
  rw [Nat.one_shiftLeft, Nat.and_two_pow]
  cases h : code.testBit i
  · simp
  · simp

theorem sendStart_eq (L : Nat) (hL : L ≤ 128) : sendStart L = L := by
  unfold sendStart
  simp only
  split <;> omega

theorem codeBits_succ (code n : Nat) :
    codeBits code (n + 1) = code.testBit n :: codeBits code n := by
  simp only [codeBits, List.range_succ_eq_map, List.map_cons, List.map_map]
  refine congrArg₂ _ rfl ?_
  apply List.map_congr_left
  intro k _
  simp only [Function.comp, Nat.succ_eq_add_one]
  congr 1
  omega

theorem length_codeBits (code L : Nat) : (codeBits code L).length = L := by
  simp [codeBits]

/-! ### The transmitter -/

theorem pulse_congr (pro : Protocol) (p q pin : Nat) (hl : HighLow)
    (h : setPin p pin = setPin q pin) : pulse pro p pin hl = pulse pro q pin hl := by
  simp only [pulse, h]

theorem transmit_wave (s : State) (hl : HighLow) :
    (transmit s hl).wave = s.wave ++ pulse s.protocol s.nPort s.nTransmitterPin hl := rfl

theorem transmit_keeps (s : State) (hl : HighLow) :
    (transmit s hl).protocol = s.protocol
    ∧ (transmit s hl).nTransmitterPin = s.nTransmitterPin
    ∧ setPin (transmit s hl).nPort s.nTransmitterPin = setPin s.nPort s.nTransmitterPin :=
  ⟨rfl, rfl, setPin_clearPin_setPin _ _⟩

theorem sendBits_wave (code : Nat) (pro : Protocol) (p0 pin : Nat) :
    ∀ (n : Nat) (s : State), s.protocol = pro → s.nTransmitterPin = pin →
      setPin s.nPort pin = setPin p0 pin →
      (sendBits code n s).wave
          = s.wave ++ (codeBits code n).flatMap
              (fun b => pulse pro p0 pin (bitPattern pro b))
        ∧ (sendBits code n s).protocol = pro
        ∧ (sendBits code n s).nTransmitterPin = pin
        ∧ setPin (sendBits code n s).nPort pin = setPin p0 pin := by
  intro n
  induction n with
  | zero =>
    intro s hp hpin hport
    simp [sendBits, codeBits, hp, hpin, hport]
  | succ n ih =>
    intro s hp hpin hport
    have hstep : (if code &&& (1 <<< n) ≠ 0 then transmit s s.protocol.one
        else transmit s s.protocol.zero) = transmit s (bitPattern pro (code.testBit n)) := by
      by_cases hb : code.testBit n = true
      · rw [if_pos ((and_shiftLeft_ne_zero code n).2 hb)]
        simp [bitPattern, hb, hp]
      · rw [if_neg (fun h => hb ((and_shiftLeft_ne_zero code n).1 h))]
        simp [bitPattern, hb, hp]
    obtain ⟨k1, k2, k3⟩ := transmit_keeps s (bitPattern pro (code.testBit n))
    have ih' := ih (transmit s (bitPattern pro (code.testBit n))) (k1.trans hp) (k2.trans hpin)
      (by rw [← hpin, k3, hpin]; exact hport)
    simp only [sendBits, hstep]
    refine ⟨?_, ih'.2⟩
    rw [ih'.1, transmit_wave, hp, hpin, pulse_congr pro s.nPort p0 pin _ hport,
      codeBits_succ, List.flatMap_cons, List.append_assoc]

theorem sendFrames_wave (code L : Nat) (pro : Protocol) (p0 pin : Nat) :
    ∀ (R : Nat) (s : State), s.protocol = pro → s.nTransmitterPin = pin →
      setPin s.nPort pin = setPin p0 pin →
      (sendFrames code L R s).wave
        = s.wave ++ (List.replicate R (frame pro p0 pin code L)).flatten := by
  intro R
  induction R with
  | zero =>
    intro s _ _ _
    simp [sendFrames]
  | succ R ih =>
    intro s hp hpin hport
    obtain ⟨b1, b2, b3, b4⟩ := sendBits_wave code pro p0 pin L s hp hpin hport
    obtain ⟨k1, k2, k3⟩ :=
      transmit_keeps (sendBits code L s) (sendBits code L s).protocol.syncFactor
    simp only [sendFrames]
    rw [ih _ (k1.trans b2) (k2.trans b3) (by rw [← b3, k3, b3]; exact b4), transmit_wave, b1,
      b2, b3, pulse_congr pro _ p0 pin _ b4, List.replicate_succ, List.flatten_cons, frame]
    simp only [List.append_assoc]

/-- The waveform `send` appends, for any length up to 128 (the range in which
the `int8_t` loop counter starts at `length - 1`). -/
theorem send_wave (s : State) (code L : Nat) (hL : L ≤ 128) :
    (send s code L).wave
      = s.wave ++ (List.replicate s.nRepeatTransmit
          (frame s.protocol s.nPort s.nTransmitterPin code L)).flatten := by
  have hguard : ¬ ((s.nTransmitterPin : Int) = -1) := by omega
  simp only [send, if_neg hguard, sendStart_eq L hL]
  exact sendFrames_wave code L s.protocol s.nPort s.nTransmitterPin
    s.nRepeatTransmit s rfl rfl rfl

theorem length_dataPulses (pro : Protocol) (port pin : Nat) (bits : List Bool) :
    (bits.flatMap (fun b => pulse pro port pin (bitPattern pro b))).length
      = 2 * bits.length := by
  induction bits with
  | nil => rfl
  | cons b bs ih =>
    rw [List.flatMap_cons, List.length_append, ih, List.length_cons]
    simp only [pulse, List.length_cons, List.length_nil]
    omega

theorem length_flatten_replicate (R : Nat) (l : List Hold) :
    (List.replicate R l).flatten.length = R * l.length := by
  induction R with
  | zero => simp
  | succ R ih =>
    rw [List.replicate_succ, List.flatten_cons, List.length_append, ih]
    ring

/-- C2: for every state (active protocol, repeat count, pin), every code and
every length `L ≤ 16`, `send(code, L)` appends to the waveform exactly
`nRepeatTransmit` copies of one frame, a frame being the `L` data pulses for
the bits `L-1`, ..., `0` of `code` (pattern `one` for a set bit, `zero`
otherwise) followed by one sync pulse; each pulse is two stretches of output,
so `nRepeatTransmit * (2 * L + 2)` stretches are added. -/
theorem send_emits_frames (s : State) (code L : Nat) (hL : L ≤ 16) :
    (send s code L).wave
      = s.wave ++ (List.replicate s.nRepeatTransmit
          ((codeBits code L).flatMap
              (fun b => pulse s.protocol s.nPort s.nTransmitterPin (bitPattern s.protocol b))
            ++ pulse s.protocol s.nPort s.nTransmitterPin s.protocol.syncFactor)).flatten
    ∧ (codeBits code L).length = L
    ∧ (∀ k, k < L → (codeBits code L)[k]? = some (code.testBit (L - 1 - k)))
    ∧ (send s code L).wave.length = s.wave.length + s.nRepeatTransmit * (2 * L + 2) := by
  have hw := send_wave s code L (by omega)
  refine ⟨hw, length_codeBits code L, ?_, ?_⟩
  · intro k hk
    simp [codeBits, List.getElem?_range hk]
  · rw [hw, List.length_append, length_flatten_replicate, frame, List.length_append,
      length_dataPulses, length_codeBits]
    simp only [pulse, List.length_cons, List.length_nil]

/-- Witness for C2: `send(5, 3)` on pin 4 with the defaults of
`enableTransmit` (protocol 1, ten repetitions). -/
theorem send_emits_frames_witness :
    (send (enableTransmit powerOn 0 4) 5 3).wave
      = [] ++ (List.replicate 10
          ((codeBits 5 3).flatMap (fun b => pulse (protoAt 0) 0 4 (bitPattern (protoAt 0) b))
            ++ pulse (protoAt 0) 0 4 (protoAt 0).syncFactor)).flatten
    ∧ (codeBits 5 3).length = 3
    ∧ (∀ k, k < 3 → (codeBits 5 3)[k]? = some (Nat.testBit 5 (3 - 1 - k)))
    ∧ (send (enableTransmit powerOn 0 4) 5 3).wave.length = 0 + 10 * (2 * 3 + 2) :=
  send_emits_frames (enableTransmit powerOn 0 4) 5 3 (by decide)

/-! ### Bit strings and the word encoders -/

theorem bitsValue_lt (bs : List Bool) : bitsValue bs < 2 ^ bs.length := by
  induction bs with
  | nil => simp [bitsValue]
  | cons b bs ih =>
    simp only [bitsValue, List.length_cons, pow_succ]
    cases b <;> simp <;> omega

theorem codeBits_congr (x y n : Nat) (h : ∀ k, k < n → x.testBit k = y.testBit k) :
    codeBits x n = codeBits y n := by
  simp only [codeBits]
  apply List.map_congr_left
  intro k hk
  have := List.mem_range.1 hk
  exact h _ (by omega)

theorem codeBits_bitsValue (bs : List Bool) : codeBits (bitsValue bs) bs.length = bs := by
  induction bs with
  | nil => simp [codeBits]
  | cons b bs ih =>
    have hlt := bitsValue_lt bs
    have key : ∀ j, (bitsValue (b :: bs)).testBit j
        = if j < bs.length then (bitsValue bs).testBit j else b.toNat.testBit (j - bs.length) := by
      intro j
      simp only [bitsValue]
      rw [Nat.mul_comm]
      exact Nat.testBit_mul_pow_two_add _ hlt j
    rw [List.length_cons, codeBits_succ, key, if_neg (Nat.lt_irrefl _), Nat.sub_self,
      codeBits_congr _ (bitsValue bs) _ (fun k hk => by rw [key, if_pos hk]), ih]
    cases b <;> rfl

theorem shiftLeft_or_low (x d i : Nat) (hd : d < 2 ^ i) : (x <<< i) ||| d = x * 2 ^ i + d := by
  rw [Nat.shiftLeft_eq, Nat.mul_comm x, ← Nat.mul_add_lt_is_or hd]

theorem bitsValue_append (as bs : List Bool) :
    bitsValue (as ++ bs) = bitsValue as * 2 ^ bs.length + bitsValue bs := by
  induction as with
  | nil => simp [bitsValue]
  | cons a as ih =>
    rw [List.cons_append, bitsValue, bitsValue, ih, List.length_append, pow_add]
    ring

theorem triStep (code d : Nat) (n : Nat) (hd : d < 4)
    (h : (code + 1) * 2 ^ (2 * (n + 1)) ≤ 65536) :
    ((code <<< 2) % 65536) ||| d = code * 4 + d
    ∧ (code * 4 + d + 1) * 2 ^ (2 * n) ≤ 65536 := by
  have hp : 2 ^ (2 * (n + 1)) = 4 * 2 ^ (2 * n) := by
    rw [show 2 * (n + 1) = 2 * n + 2 from by ring, pow_add]; ring
  rw [hp] at h
  have hpos : 0 < 2 ^ (2 * n) := Nat.pow_pos (by decide)
  have h1 : (code * 4 + d + 1) * 2 ^ (2 * n) ≤ (code + 1) * (4 * 2 ^ (2 * n)) := by
    have : code * 4 + d + 1 ≤ (code + 1) * 4 := by omega
    calc (code * 4 + d + 1) * 2 ^ (2 * n) ≤ ((code + 1) * 4) * 2 ^ (2 * n) :=
          Nat.mul_le_mul_right _ this
      _ = (code + 1) * (4 * 2 ^ (2 * n)) := by ring
  have hc : code * 4 < 65536 := by nlinarith
  refine ⟨?_, le_trans h1 h⟩
  have hs : code <<< 2 = code * 4 := by rw [Nat.shiftLeft_eq]
  rw [Nat.mod_eq_of_lt (by rw [hs]; exact hc), shiftLeft_or_low code d 2 (by simpa using hd)]
  norm_num

theorem triSymbol (c : Char) (hc : c = '0' ∨ c = 'F' ∨ c = '1') :
    ∃ d, d < 4 ∧ c ≠ Char.ofNat 0
      ∧ (∀ x : Nat, (if c = '0' then x else if c = 'F' then x ||| 1
            else if c = '1' then x ||| 3 else x) = x ||| d)
      ∧ (triBits c).length = 2 ∧ bitsValue (triBits c) = d := by
  rcases hc with h | h | h <;> subst h
  · exact ⟨0, by decide, by decide, fun x => by simp, by decide, by decide⟩
  · exact ⟨1, by decide, by decide, fun x => by simp, by decide, by decide⟩
  · exact ⟨3, by decide, by decide, fun x => by simp, by decide, by decide⟩

theorem sendTriStateLoop_eq : ∀ (w : List Char) (code len : Nat),
    (∀ c ∈ w, c = '0' ∨ c = 'F' ∨ c = '1') →
    (code + 1) * 2 ^ (2 * w.length) ≤ 65536 → len + 2 * w.length < 65536 →
    sendTriStateLoop w code len
        = (code * 2 ^ (2 * w.length) + bitsValue (triStateBits w), len + 2 * w.length)
      ∧ (triStateBits w).length = 2 * w.length := by
  intro w
  induction w with
  | nil =>
    intro code len _ _ _
    simp [sendTriStateLoop, triStateBits, bitsValue]
  | cons c cs ih =>
    intro code len hw hcode hlen
    have hcs : ∀ c ∈ cs, c = '0' ∨ c = 'F' ∨ c = '1' := fun x hx => hw x (List.mem_cons_of_mem _ hx)
    simp only [List.length_cons] at hcode hlen ⊢
    have hl : (len + 2) % 65536 = len + 2 := Nat.mod_eq_of_lt (by omega)
    have hsplit : triStateBits (c :: cs) = triBits c ++ triStateBits cs := by
      simp [triStateBits]
    have hpow : 2 ^ (2 * (cs.length + 1)) = 4 * 2 ^ (2 * cs.length) := by
      rw [show 2 * (cs.length + 1) = 2 * cs.length + 2 from by ring, pow_add]; ring
    obtain ⟨d, hd, hnul, hite, hlen2, hval⟩ := triSymbol c (hw c (List.mem_cons_self _ _))
    obtain ⟨e1, e2⟩ := triStep code d cs.length hd hcode
    obtain ⟨i1, i2⟩ := ih (code * 4 + d) (len + 2) hcs e2 (by omega)
    refine ⟨?_, ?_⟩
    · simp only [sendTriStateLoop, hl, if_neg hnul, hite, e1]
      rw [i1, hsplit, bitsValue_append, i2, hval, hpow]
      refine Prod.ext ?_ ?_ <;> simp only <;> ring
    · rw [hsplit, List.length_append, i2, hlen2]; ring

/-- For a tri-state word `w` over `0`, `F`, `1` of at most eight symbols,
`sendTriState(w)` is `send(code, 2n)` for the code whose bits `2n-1`, ..., `0`
are the two-bit expansions of the symbols, first symbol first, and the
waveform it appends is `nRepeatTransmit` frames carrying exactly those `2n`
bits. -/
theorem sendTriState_emits (s : State) (w : List Char)
    (hw : ∀ c ∈ w, c = '0' ∨ c = 'F' ∨ c = '1') (hn : w.length ≤ 8) :
    sendTriState s w = send s (bitsValue (triStateBits w)) (2 * w.length)
    ∧ codeBits (bitsValue (triStateBits w)) (2 * w.length) = triStateBits w
    ∧ (sendTriState s w).wave
        = s.wave ++ (List.replicate s.nRepeatTransmit
            ((triStateBits w).flatMap
                (fun b => pulse s.protocol s.nPort s.nTransmitterPin (bitPattern s.protocol b))
              ++ pulse s.protocol s.nPort s.nTransmitterPin s.protocol.syncFactor)).flatten := by
  have hpow : (0 + 1) * 2 ^ (2 * w.length) ≤ 65536 := by
    rw [Nat.zero_add, Nat.one_mul, show (65536 : Nat) = 2 ^ 16 from rfl]
    exact Nat.pow_le_pow_right (by decide) (by omega)
  obtain ⟨hloop, hlen⟩ := sendTriStateLoop_eq w 0 0 hw hpow (by omega)
  have hbits : codeBits (bitsValue (triStateBits w)) (2 * w.length) = triStateBits w := by
    rw [← hlen]; exact codeBits_bitsValue _
  have hsend : sendTriState s w = send s (bitsValue (triStateBits w)) (2 * w.length) := by
    simp only [sendTriState, hloop, Nat.zero_mul, Nat.zero_add]
  refine ⟨hsend, hbits, ?_⟩
  rw [hsend, send_wave s _ _ (by omega), frame, hbits]

/-- Instance of `sendTriState_emits`: the word `0F1` is sent as the six bits
000111, that is as `send(7, 6)`. -/
theorem sendTriState_emits_witness :
    sendTriState (enableTransmit powerOn 0 4) ['0', 'F', '1']
        = send (enableTransmit powerOn 0 4) 7 6
    ∧ codeBits 7 6 = [false, false, false, true, true, true]
    ∧ (sendTriState (enableTransmit powerOn 0 4) ['0', 'F', '1']).wave
        = [] ++ (List.replicate 10
            (([false, false, false, true, true, true] : List Bool).flatMap
                (fun b => pulse (protoAt 0) 0 4 (bitPattern (protoAt 0) b))
              ++ pulse (protoAt 0) 0 4 (protoAt 0).syncFactor)).flatten :=
  sendTriState_emits (enableTransmit powerOn 0 4) ['0', 'F', '1'] (by decide) (by decide)

/-- C4: for the nine-symbol word `100000000` the 16-bit variable `code` of
`sendTriState` loses the two bits of the first symbol: `send(0, 18)` is
called, each of the ten frames carries eighteen zero pulses, and the emitted
waveform is not the one of the 18-bit expansion `11 00...0` of the word. -/
theorem sendTriState_nine_symbols_truncated :
    (∀ c ∈ triWord9, c = '0' ∨ c = 'F' ∨ c = '1')
    ∧ sendTriStateLoop triWord9 0 0 = (0, 18)
    ∧ sendTriState (enableTransmit powerOn 0 4) triWord9
        = send (enableTransmit powerOn 0 4) 0 18
    ∧ triStateBits triWord9 = true :: true :: List.replicate 16 false
    ∧ codeBits 0 18 = List.replicate 18 false
    ∧ (sendTriState (enableTransmit powerOn 0 4) triWord9).wave
        = (List.replicate 10
            ((List.replicate 18 false).flatMap
                (fun b => pulse (protoAt 0) 0 4 (bitPattern (protoAt 0) b))
              ++ pulse (protoAt 0) 0 4 (protoAt 0).syncFactor)).flatten
    ∧ ¬ ((sendTriState (enableTransmit powerOn 0 4) triWord9).wave
        = (enableTransmit powerOn 0 4).wave ++ (List.replicate 10
            ((triStateBits triWord9).flatMap
                (fun b => pulse (protoAt 0) 0 4 (bitPattern (protoAt 0) b))
              ++ pulse (protoAt 0) 0 4 (protoAt 0).syncFactor)).flatten) := by
  have hloop : sendTriStateLoop triWord9 0 0 = (0, 18) := by decide
  refine ⟨by decide, hloop, ?_, by decide, by decide, by decide, by decide⟩
  simp only [sendTriState, hloop]

/-! ### The protocol matcher -/

theorem receiveLoop_eq_steps_aux (timings : List Nat) (pro : Protocol)
    (delay tol bound : Nat) :
    ∀ (n i code : Nat), RCSWITCH_MAX_CHANGES - i ≤ n →
      receiveLoop timings pro delay tol bound i code
        = receiveLoopSteps timings pro delay tol bound n i code := by
  intro n
  induction n with
  | zero =>
    intro i code h
    have hi : ¬ (i + 1 < RCSWITCH_MAX_CHANGES) := by omega
    have hi2 : ¬ (i < RCSWITCH_MAX_CHANGES) := by omega
    rw [receiveLoop, receiveLoopSteps]
    simp only [dif_neg hi, if_neg hi2]
  | succ n ih =>
    intro i code h
    rw [receiveLoop, receiveLoopSteps]
    by_cases hb : i < bound
    · by_cases hi : i + 1 < RCSWITCH_MAX_CHANGES
      · have hmod : (i + 2) % 65536 = i + 2 := by
          simp only [RCSWITCH_MAX_CHANGES] at hi; omega
        have hn : RCSWITCH_MAX_CHANGES - (i + 2) ≤ n := by omega
        simp only [if_pos hb, dif_pos hi, if_pos hi, hmod, ih _ _ hn]
      · simp only [if_pos hb, dif_neg hi, if_neg hi]
    · simp only [if_neg hb]

/-- The loop of `receiveProtocol` agrees with its evaluation form on a budget
of `RCSWITCH_MAX_CHANGES` steps. -/
theorem receiveLoop_eq_steps (timings : List Nat) (pro : Protocol)
    (delay tol bound i code : Nat) :
    receiveLoop timings pro delay tol bound i code
      = receiveLoopSteps timings pro delay tol bound RCSWITCH_MAX_CHANGES i code :=
  receiveLoop_eq_steps_aux timings pro delay tol bound _ i code (Nat.sub_le _ _)

theorem receiveProtocol_eq_steps (s : State) (p changeCount : Nat) :
    receiveProtocol s p changeCount =
      match proto[(65535 + p) % 65536]?, s.timings[0]? with
      | some pro, some sync =>
        let syncLengthInPulses :=
          if pro.syncFactor.low > pro.syncFactor.high then pro.syncFactor.low
          else pro.syncFactor.high
        let delay := sync / syncLengthInPulses
        let delayTolerance := (delay * s.nReceiveTolerance) % 65536 / 100
        let firstDataTiming := if pro.invertedSignal then 2 else 1
        match receiveLoopSteps s.timings pro delay delayTolerance ((65535 + changeCount) % 65536)
            RCSWITCH_MAX_CHANGES firstDataTiming 0 with
        | Scan.fault => none
        | Scan.failed => some (false, s)
        | Scan.decoded code =>
          if changeCount > 7 then
            some (true,
              { s with
                nReceivedValue := (code : Int)
                nReceivedBitlength := ((65535 + changeCount) % 65536) / 2
                nReceivedDelay := delay
                nReceivedProtocol := p })
          else some (false, s)
      | _, _ => none := by
  unfold receiveProtocol
  simp only [receiveLoop_eq_steps]

/-- If the pairs of slots from index `i` on decode, one after the other, to
the bits of `bits`, and the loop bound is reached right after them, the loop
of `receiveProtocol` ends with these bits pushed into `code`. -/
theorem receiveLoop_decoded (timings : List Nat) (pro : Protocol) (delay tol bound : Nat) :
    ∀ (bits : List Bool) (i code : Nat),
      i + 2 * bits.length ≤ RCSWITCH_MAX_CHANGES →
      bound ≤ i + 2 * bits.length → i + 2 * bits.length < bound + 2 →
      (∀ k b, bits[k]? = some b → ∃ t0 t1, timings[i + 2 * k]? = some t0
          ∧ timings[i + 2 * k + 1]? = some t1 ∧ pairBit pro delay tol t0 t1 = some b) →
      receiveLoop timings pro delay tol bound i code = Scan.decoded (pushBits code bits) := by
  intro bits
  induction bits with
  | nil =>
    intro i code _ hb _ _
    rw [receiveLoop]
    simp only [List.length_nil, Nat.mul_zero, Nat.add_zero] at hb
    rw [if_neg (by omega)]
    rfl
  | cons b bs ih =>
    intro i code hmax hlo hhi hread
    simp only [List.length_cons] at hmax hlo hhi
    have hmax' : i + 2 * bs.length + 2 ≤ 67 := by
      simp only [RCSWITCH_MAX_CHANGES] at hmax; omega
    obtain ⟨t0, t1, r0, r1, hbit⟩ := hread 0 b (by simp)
    simp only [Nat.mul_zero, Nat.add_zero] at r0 r1
    have hi : i + 1 < RCSWITCH_MAX_CHANGES := by
      simp only [RCSWITCH_MAX_CHANGES]; omega
    have hmod : (i + 2) % 65536 = i + 2 := by omega
    have hrest := ih (i + 2)
    have hread' : ∀ k b', bs[k]? = some b' → ∃ t0 t1, timings[i + 2 + 2 * k]? = some t0
          ∧ timings[i + 2 + 2 * k + 1]? = some t1 ∧ pairBit pro delay tol t0 t1 = some b' := by
      intro k b' hk
      obtain ⟨u0, u1, q0, q1, q2⟩ := hread (k + 1) b' (by simpa using hk)
      refine ⟨u0, u1, ?_, ?_, q2⟩
      · rw [← q0]; congr 1; ring
      · rw [← q1]; congr 1; ring
    rw [receiveLoop, if_pos (by omega), dif_pos hi, r0, r1]
    simp only [hmod]
    unfold pairBit pairMatches at hbit
    by_cases hz : diff t0 (delay * pro.zero.high % 65536) < tol ∧
        diff t1 (delay * pro.zero.low % 65536) < tol
    · rw [if_pos hz] at hbit
      rw [if_pos hz, ih (i + 2) _ (by simp only [RCSWITCH_MAX_CHANGES]; omega) (by omega)
        (by omega) hread']
      cases hbit
      simp [pushBits]
    · rw [if_neg hz] at hbit
      rw [if_neg hz]
      by_cases ho : diff t0 (delay * pro.one.high % 65536) < tol ∧
          diff t1 (delay * pro.one.low % 65536) < tol
      · rw [if_pos ho] at hbit
        rw [if_pos ho, ih (i + 2) _ (by simp only [RCSWITCH_MAX_CHANGES]; omega) (by omega)
          (by omega) hread']
        cases hbit
        simp [pushBits]
      · rw [if_neg ho] at hbit
        cases hbit


theorem bitsValue_codeBits (C L : Nat) : bitsValue (codeBits C L) = C % 2 ^ L := by
  induction L with
  | zero => simp [codeBits, bitsValue, Nat.mod_one]
  | succ L ih =>
    rw [codeBits_succ, bitsValue, ih, length_codeBits, Nat.mod_pow_succ, Nat.toNat_testBit]
    ring

theorem pushBits_eq : ∀ (bits : List Bool) (code : Nat),
    (code + 1) * 2 ^ bits.length ≤ 65536 →
    pushBits code bits = code * 2 ^ bits.length + bitsValue bits := by
  intro bits
  induction bits with
  | nil => intro code _; simp [pushBits, bitsValue]
  | cons b bs ih =>
    intro code h
    rw [List.length_cons, pow_succ] at h
    have hpos : 0 < 2 ^ bs.length := Nat.pow_pos (by decide)
    have hb : b.toNat < 2 ^ 1 := by cases b <;> simp
    have hb' : b.toNat ≤ 1 := by cases b <;> simp
    have hc : code * 2 < 65536 := by nlinarith
    have hstep : ((code <<< 1) % 65536) ||| b.toNat = code * 2 + b.toNat := by
      have hs : code <<< 1 = code * 2 := by rw [Nat.shiftLeft_eq, pow_one]
      rw [Nat.mod_eq_of_lt (by rw [hs]; exact hc), shiftLeft_or_low code _ 1 hb, pow_one]
    have hnext : (code * 2 + b.toNat + 1) * 2 ^ bs.length ≤ 65536 := by
      have : code * 2 + b.toNat + 1 ≤ (code + 1) * 2 := by omega
      calc (code * 2 + b.toNat + 1) * 2 ^ bs.length
          ≤ ((code + 1) * 2) * 2 ^ bs.length := Nat.mul_le_mul_right _ this
        _ = (code + 1) * (2 ^ bs.length * 2) := by ring
        _ ≤ 65536 := h
    have hfold : pushBits code (b :: bs) = pushBits (((code <<< 1) % 65536) ||| b.toNat) bs := by
      simp [pushBits]
    rw [hfold, hstep, ih _ hnext, bitsValue, List.length_cons, pow_succ]
    ring

/-- Pushing the bits `L-1`, ..., `0` of a code `C < 2^L` into the 16-bit
accumulator gives `C` back, for `L ≤ 16`. -/
theorem pushBits_codeBits (C L : Nat) (hL : L ≤ 16) (hC : C < 2 ^ L) :
    pushBits 0 (codeBits C L) = C := by
  have h16 : 2 ^ L ≤ 65536 := by
    rw [show (65536 : Nat) = 2 ^ 16 from rfl]
    exact Nat.pow_le_pow_right (by decide) hL
  rw [pushBits_eq _ _ (by rw [length_codeBits]; omega), bitsValue_codeBits,
    Nat.mod_eq_of_lt hC]
  simp

theorem dataSlots_read (pro : Protocol) (post : List Nat) :
    ∀ (bits : List Bool) (k : Nat) (b : Bool), bits[k]? = some b →
      (dataSlots pro bits ++ post)[2 * k]?
          = some ((pro.pulseLength * (bitPattern pro b).high) % 65536)
      ∧ (dataSlots pro bits ++ post)[2 * k + 1]?
          = some ((pro.pulseLength * (bitPattern pro b).low) % 65536) := by
  intro bits
  induction bits with
  | nil => intro k b h; simp at h
  | cons a as ih =>
    intro k b h
    have hcons : dataSlots pro (a :: as) ++ post
        = (pro.pulseLength * (bitPattern pro a).high) % 65536
          :: (pro.pulseLength * (bitPattern pro a).low) % 65536
          :: (dataSlots pro as ++ post) := by
      simp [dataSlots]
    rw [hcons]
    cases k with
    | zero =>
      simp only [List.getElem?_cons_zero, Option.some.injEq] at h
      subst h
      simp
    | succ k =>
      simp only [List.getElem?_cons_succ] at h
      obtain ⟨h0, h1⟩ := ih k b h
      rw [show 2 * (k + 1) + 1 = (2 * k + 1) + 1 + 1 from by ring,
        show 2 * (k + 1) = 2 * k + 1 + 1 from by ring]
      simp only [List.getElem?_cons_succ]
      exact ⟨h0, h1⟩

theorem capture_read (pro : Protocol) (C L : Nat) (rest : List Nat) :
    (capture pro C L ++ rest)[0]? = some ((pro.pulseLength * syncMax pro) % 65536)
    ∧ ∀ k b, (codeBits C L)[k]? = some b →
      (capture pro C L ++ rest)[firstData pro + 2 * k]?
          = some ((pro.pulseLength * (bitPattern pro b).high) % 65536)
      ∧ (capture pro C L ++ rest)[firstData pro + 2 * k + 1]?
          = some ((pro.pulseLength * (bitPattern pro b).low) % 65536) := by
  refine ⟨by simp [capture], ?_⟩
  intro k b hk
  cases hinv : pro.invertedSignal
  · obtain ⟨h0, h1⟩ := dataSlots_read pro
      ([(pro.pulseLength * syncMin pro) % 65536] ++ rest) (codeBits C L) k b hk
    simp only [capture, firstData, hinv, List.append_nil, List.singleton_append,
      List.cons_append, List.append_assoc, List.nil_append, Bool.false_eq_true, if_false]
    rw [show 1 + 2 * k + 1 = (2 * k + 1) + 1 from by ring,
      show 1 + 2 * k = 2 * k + 1 from by ring]
    simp only [List.getElem?_cons_succ]
    exact ⟨h0, h1⟩
  · obtain ⟨h0, h1⟩ := dataSlots_read pro rest (codeBits C L) k b hk
    simp only [capture, firstData, hinv, List.append_nil, List.singleton_append,
      List.cons_append, List.append_assoc, List.nil_append, if_true]
    rw [show 2 + 2 * k + 1 = (2 * k + 1) + 1 + 1 from by ring,
      show 2 + 2 * k = 2 * k + 1 + 1 from by ring]
    simp only [List.getElem?_cons_succ]
    exact ⟨h0, h1⟩


theorem proto_lookup (p : Nat) (hp : 1 ≤ p ∧ p ≤ 6) :
    proto[(65535 + p) % 65536]? = some (protoAt (p - 1)) ∧ protoAt (p - 1) ∈ proto := by
  obtain ⟨h1, h6⟩ := hp
  interval_cases p <;> decide

/-- For every table entry the long sync duration divided by the sync length
gives the pulse length back, and an exact data pair decodes to its bit under
the tolerance 60. -/
theorem proto_exact :
    ∀ pro ∈ proto,
      ((pro.pulseLength * syncMax pro) % 65536) /
          (if pro.syncFactor.low > pro.syncFactor.high then pro.syncFactor.low
            else pro.syncFactor.high) = pro.pulseLength
      ∧ ∀ b : Bool,
        pairBit pro pro.pulseLength ((pro.pulseLength * 60) % 65536 / 100)
          ((pro.pulseLength * (bitPattern pro b).high) % 65536)
          ((pro.pulseLength * (bitPattern pro b).low) % 65536) = some b := by
  decide

theorem receiveProtocol_decoded (s : State) (p changeCount : Nat) (pro : Protocol)
    (sync code : Nat) (hp : proto[(65535 + p) % 65536]? = some pro)
    (h0 : s.timings[0]? = some sync)
    (hloop : receiveLoop s.timings pro
        (sync / (if pro.syncFactor.low > pro.syncFactor.high then pro.syncFactor.low
          else pro.syncFactor.high))
        ((sync / (if pro.syncFactor.low > pro.syncFactor.high then pro.syncFactor.low
          else pro.syncFactor.high) * s.nReceiveTolerance) % 65536 / 100)
        ((65535 + changeCount) % 65536) (firstData pro) 0 = Scan.decoded code)
    (hcc : changeCount > 7) :
    receiveProtocol s p changeCount = some (true,
      { s with
        nReceivedValue := (code : Int)
        nReceivedBitlength := ((65535 + changeCount) % 65536) / 2
        nReceivedDelay := sync / (if pro.syncFactor.low > pro.syncFactor.high
          then pro.syncFactor.low else pro.syncFactor.high)
        nReceivedProtocol := p }) := by
  unfold receiveProtocol
  rw [hp, h0]
  simp only [firstData] at hloop
  simp only [hloop, if_pos hcc]


/-- The durations of the stretches of one frame are the data slots followed
by the two sync durations. -/
theorem frame_durations (pro : Protocol) (port pin C L : Nat) :
    (frame pro port pin C L).map Hold.us
      = dataSlots pro (codeBits C L)
        ++ [(pro.pulseLength * pro.syncFactor.high) % 65536,
            (pro.pulseLength * pro.syncFactor.low) % 65536] := by
  unfold frame dataSlots
  generalize codeBits C L = bits
  induction bits with
  | nil => simp [pulse]
  | cons b bs ih =>
    simp only [List.flatMap_cons, List.append_assoc, List.map_append] at ih ⊢
    rw [ih]
    simp [pulse]

/-- Decoding the jitter-free capture of a frame of 3 to 16 bits under any of
the six protocols, with tolerance 60. -/
theorem receiveProtocol_capture (s : State) (p L C : Nat) (rest : List Nat)
    (hp : 1 ≤ p ∧ p ≤ 6) (hL : 3 ≤ L ∧ L ≤ 16) (hC : C < 2 ^ L)
    (htol : s.nReceiveTolerance = 60)
    (hbuf : s.timings = capture (protoAt (p - 1)) C L ++ rest) :
    receiveProtocol s p (2 * L + 2) = some (true,
      { s with
        nReceivedValue := (C : Int)
        nReceivedBitlength := L
        nReceivedDelay := (protoAt (p - 1)).pulseLength
        nReceivedProtocol := p }) := by
  obtain ⟨hlook, hmem⟩ := proto_lookup p hp
  obtain ⟨hdelay, hbit⟩ := proto_exact _ hmem
  obtain ⟨r0, rk⟩ := capture_read (protoAt (p - 1)) C L rest
  rw [← hbuf] at r0 rk
  have hfirst : firstData (protoAt (p - 1)) = 1 ∨ firstData (protoAt (p - 1)) = 2 := by
    unfold firstData; split <;> simp
  have hbound : (65535 + (2 * L + 2)) % 65536 = 2 * L + 1 := by omega
  have hloop := receiveLoop_decoded s.timings (protoAt (p - 1)) (protoAt (p - 1)).pulseLength
    (((protoAt (p - 1)).pulseLength * 60) % 65536 / 100) (2 * L + 1) (codeBits C L)
    (firstData (protoAt (p - 1))) 0
    (by rw [length_codeBits]; simp only [RCSWITCH_MAX_CHANGES]; omega)
    (by rw [length_codeBits]; omega) (by rw [length_codeBits]; omega)
    (fun k b hk => ⟨_, _, (rk k b hk).1, (rk k b hk).2, hbit b⟩)
  have h := receiveProtocol_decoded s p (2 * L + 2) (protoAt (p - 1)) _
    (pushBits 0 (codeBits C L)) hlook r0
    (by rw [hdelay, htol, hbound]; exact hloop) (by omega)
  rw [h, hdelay, hbound, pushBits_codeBits C L hL.2 hC]
  have : (2 * L + 1) / 2 = L := by omega
  rw [this]

/-- C1 (amended): for every built-in protocol `p` in 1..6, every bit length
`L` with `3 ≤ L ≤ 16` and every code `C < 2^L`, with the tolerance 60 that
`enableReceive` sets, `receiveProtocol(p, 2L+2)` on a buffer that starts with
the jitter-free capture of the frame `send(C, L)` emits returns true and
publishes value `C`, bit length `L`, delay `pulseLength` and protocol `p`;
the data slots of the capture are the durations of the frame of `send`. -/
theorem roundtrip_receiveProtocol (s : State) (p L C : Nat) (rest : List Nat)
    (hp : 1 ≤ p ∧ p ≤ 6) (hL : 3 ≤ L ∧ L ≤ 16) (hC : C < 2 ^ L)
    (htol : s.nReceiveTolerance = 60)
    (hbuf : s.timings = capture (protoAt (p - 1)) C L ++ rest) :
    receiveProtocol s p (2 * L + 2) = some (true,
      { s with
        nReceivedValue := (C : Int)
        nReceivedBitlength := L
        nReceivedDelay := (protoAt (p - 1)).pulseLength
        nReceivedProtocol := p })
    ∧ ∀ port pin, (frame (protoAt (p - 1)) port pin C L).map Hold.us
        = dataSlots (protoAt (p - 1)) (codeBits C L)
          ++ [((protoAt (p - 1)).pulseLength * (protoAt (p - 1)).syncFactor.high) % 65536,
              ((protoAt (p - 1)).pulseLength * (protoAt (p - 1)).syncFactor.low) % 65536] :=
  ⟨receiveProtocol_capture s p L C rest hp hL hC htol hbuf,
    fun port pin => frame_durations (protoAt (p - 1)) port pin C L⟩

/-- Witness for C1: code 5 on 3 bits under protocol 1. -/
theorem roundtrip_receiveProtocol_witness :
    receiveProtocol (receiverWith (capture (protoAt (1 - 1)) 5 3 ++ List.replicate 59 0)) 1
        (2 * 3 + 2)
      = some (true,
        { receiverWith (capture (protoAt (1 - 1)) 5 3 ++ List.replicate 59 0) with
          nReceivedValue := ((5 : Nat) : Int)
          nReceivedBitlength := 3
          nReceivedDelay := (protoAt (1 - 1)).pulseLength
          nReceivedProtocol := 1 })
    ∧ ∀ port pin, (frame (protoAt (1 - 1)) port pin 5 3).map Hold.us
        = dataSlots (protoAt (1 - 1)) (codeBits 5 3)
          ++ [((protoAt (1 - 1)).pulseLength * (protoAt (1 - 1)).syncFactor.high) % 65536,
              ((protoAt (1 - 1)).pulseLength * (protoAt (1 - 1)).syncFactor.low) % 65536] :=
  roundtrip_receiveProtocol (receiverWith (capture (protoAt (1 - 1)) 5 3 ++ List.replicate 59 0))
    1 3 5 (List.replicate 59 0) (by decide) (by decide) (by decide) rfl rfl

/-- C1 fails as stated for `L = 1`: the capture of the one-bit frame of code 1
under protocol 1 has 4 slots, and `receiveProtocol(1, 4)` returns false and
publishes nothing, because of the guard `changeCount > 7`. -/
theorem roundtrip_fails_for_one_bit :
    capture (protoAt 0) 1 1 = [10850, 1050, 350, 350]
    ∧ receiveProtocol (receiverWith (capture (protoAt 0) 1 1 ++ List.replicate 63 0)) 1
        (2 * 1 + 2)
      = some (false, receiverWith (capture (protoAt 0) 1 1 ++ List.replicate 63 0)) := by
  rw [receiveProtocol_eq_steps]
  decide

/-! ### Binary code words -/

theorem sendBinaryLoop_eq : ∀ (w : List Char) (code len : Nat),
    (∀ c ∈ w, c ≠ Char.ofNat 0) → len + w.length < 65536 →
    sendBinaryLoop w code len = (pushBits code (binaryBits w), len + w.length) := by
  intro w
  induction w with
  | nil => intro code len _ _; simp [sendBinaryLoop, pushBits, binaryBits]
  | cons c cs ih =>
    intro code len hw hlen
    simp only [List.length_cons] at hlen
    have hnul : c ≠ Char.ofNat 0 := hw c (List.mem_cons_self _ _)
    have hl : (len + 1) % 65536 = len + 1 := Nat.mod_eq_of_lt (by omega)
    have hbit : (if c ≠ '0' then ((code <<< 1) % 65536) ||| 1 else (code <<< 1) % 65536)
        = ((code <<< 1) % 65536) ||| (decide (c ≠ '0')).toNat := by
      by_cases h : c = '0' <;> simp [h]
    simp only [sendBinaryLoop, if_neg hnul, hl, hbit]
    rw [ih _ _ (fun x hx => hw x (List.mem_cons_of_mem _ hx)) (by omega)]
    refine Prod.ext ?_ ?_
    · simp [pushBits, binaryBits]
    · simp only [List.length_cons]; omega

/-- C5: for every built-in protocol `p` in 1..6 and every string `w` of `n`
non-NUL characters with `3 ≤ n ≤ 16`, `sendBinary(w)` is `send(v, n)` for the
value `v` whose bits `n-1`, ..., `0` are 0 for a character `0` and 1 for any
other character, first character first; the frames it emits carry these
bits; and `receiveProtocol(p, 2n+2)` with tolerance 60 on the jitter-free
capture of such a frame returns true and publishes value `v` and bit length
`n`. -/
theorem sendBinary_roundtrip (s r : State) (w : List Char) (p : Nat) (rest : List Nat)
    (hw : ∀ c ∈ w, c ≠ Char.ofNat 0) (hn : 3 ≤ w.length ∧ w.length ≤ 16)
    (hp : 1 ≤ p ∧ p ≤ 6) (hs : s.protocol = protoAt (p - 1))
    (htol : r.nReceiveTolerance = 60)
    (hbuf : r.timings = capture (protoAt (p - 1)) (bitsValue (binaryBits w)) w.length ++ rest) :
    sendBinary s w = send s (bitsValue (binaryBits w)) w.length
    ∧ codeBits (bitsValue (binaryBits w)) w.length = binaryBits w
    ∧ (sendBinary s w).wave
        = s.wave ++ (List.replicate s.nRepeatTransmit
            (frame (protoAt (p - 1)) s.nPort s.nTransmitterPin
              (bitsValue (binaryBits w)) w.length)).flatten
    ∧ (frame (protoAt (p - 1)) s.nPort s.nTransmitterPin
          (bitsValue (binaryBits w)) w.length).map Hold.us
        = dataSlots (protoAt (p - 1)) (binaryBits w)
          ++ [((protoAt (p - 1)).pulseLength * (protoAt (p - 1)).syncFactor.high) % 65536,
              ((protoAt (p - 1)).pulseLength * (protoAt (p - 1)).syncFactor.low) % 65536]
    ∧ receiveProtocol r p (2 * w.length + 2) = some (true,
        { r with
          nReceivedValue := (bitsValue (binaryBits w) : Int)
          nReceivedBitlength := w.length
          nReceivedDelay := (protoAt (p - 1)).pulseLength
          nReceivedProtocol := p }) := by
  have hlenb : (binaryBits w).length = w.length := by simp [binaryBits]
  have h16 : 2 ^ w.length ≤ 65536 := by
    rw [show (65536 : Nat) = 2 ^ 16 from rfl]
    exact Nat.pow_le_pow_right (by decide) hn.2
  have hloop := sendBinaryLoop_eq w 0 0 hw (by omega)
  have hval : pushBits 0 (binaryBits w) = bitsValue (binaryBits w) := by
    rw [pushBits_eq _ _ (by rw [hlenb]; omega)]; simp
  have hbits : codeBits (bitsValue (binaryBits w)) w.length = binaryBits w := by
    rw [← hlenb]; exact codeBits_bitsValue _
  have hlt : bitsValue (binaryBits w) < 2 ^ w.length := by
    rw [← hlenb]; exact bitsValue_lt _
  have hsend : sendBinary s w = send s (bitsValue (binaryBits w)) w.length := by
    simp only [sendBinary, hloop, hval, Nat.zero_add]
  refine ⟨hsend, hbits, ?_, ?_, ?_⟩
  · rw [hsend, send_wave s _ _ (by omega), hs]
  · rw [frame_durations, hbits]
  · exact receiveProtocol_capture r p w.length _ rest hp hn hlt htol hbuf

/-- Witness for C5: `sendBinary("0111")` under protocol 1 is `send(7, 4)`, and
its capture decodes to value 7 with bit length 4. -/
theorem sendBinary_roundtrip_witness :
    sendBinary (enableTransmit powerOn 0 4) ['0', '1', '1', '1']
        = send (enableTransmit powerOn 0 4) 7 4
    ∧ codeBits 7 4 = [false, true, true, true]
    ∧ (sendBinary (enableTransmit powerOn 0 4) ['0', '1', '1', '1']).wave
        = [] ++ (List.replicate 10 (frame (protoAt 0) 0 4 7 4)).flatten
    ∧ (frame (protoAt 0) 0 4 7 4).map Hold.us
        = dataSlots (protoAt 0) [false, true, true, true]
          ++ [((protoAt 0).pulseLength * (protoAt 0).syncFactor.high) % 65536,
              ((protoAt 0).pulseLength * (protoAt 0).syncFactor.low) % 65536]
    ∧ receiveProtocol (receiverWith (capture (protoAt 0) 7 4 ++ List.replicate 57 0)) 1
          (2 * 4 + 2)
        = some (true,
          { receiverWith (capture (protoAt 0) 7 4 ++ List.replicate 57 0) with
            nReceivedValue := ((7 : Nat) : Int)
            nReceivedBitlength := 4
            nReceivedDelay := 350
            nReceivedProtocol := 1 }) :=
  sendBinary_roundtrip (enableTransmit powerOn 0 4)
    (receiverWith (capture (protoAt 0) 7 4 ++ List.replicate 57 0))
    ['0', '1', '1', '1'] 1 (List.replicate 57 0) (by decide) (by decide) (by decide) rfl rfl rfl

/-! ### Jitter -/

theorem diff_lt_iff (A B tol : Nat) (hA : A < 32768) (hB : B < 32768) :
    diff A B < tol ↔ (A < B + tol ∧ B < A + tol) := by
  unfold diff
  simp only
  split <;> omega

/-- For every table entry a data pair whose two durations are within
`jitterBound` of the exact durations of a bit decodes to that bit under the
tolerance 60. -/
theorem proto_jitter :
    ∀ pro ∈ proto, ∀ (b : Bool) (v0 v1 : Nat),
      v0 < (pro.pulseLength * (bitPattern pro b).high) % 65536 + jitterBound pro →
      (pro.pulseLength * (bitPattern pro b).high) % 65536 < v0 + jitterBound pro →
      v1 < (pro.pulseLength * (bitPattern pro b).low) % 65536 + jitterBound pro →
      (pro.pulseLength * (bitPattern pro b).low) % 65536 < v1 + jitterBound pro →
      pairBit pro pro.pulseLength ((pro.pulseLength * 60) % 65536 / 100) v0 v1 = some b := by
  intro pro hmem
  simp only [proto, List.mem_cons, List.mem_singleton, List.not_mem_nil, or_false] at hmem
  rcases hmem with rfl | rfl | rfl | rfl | rfl | rfl <;> intro b v0 v1 <;> cases b <;>
    simp only [jitterBound, bitPattern, pairBit, pairMatches] <;> norm_num <;>
    intro h1 h2 h3 h4 <;>
    simp (disch := omega) only [diff_lt_iff] <;>
    first | omega | rw [if_neg (by omega), if_pos (by omega)]

/-- C8 (amended): with tolerance 60, for every built-in protocol `p` in 1..6,
every `L` with `3 ≤ L ≤ 16` and every code `C < 2^L`, if slot 0 holds the
exact sync duration and every data slot differs from its jitter-free value by
less than `jitterBound` (60% of the pulse length for protocols 1, 3 and 4;
at most 40% of it for protocols 2, 5 and 6), then `receiveProtocol(p, 2L+2)`
returns true and publishes value `C` (with bit length `L`, delay
`pulseLength` and protocol `p`). -/
theorem receiveProtocol_jitter (s : State) (p L C : Nat)
    (hp : 1 ≤ p ∧ p ≤ 6) (hL : 3 ≤ L ∧ L ≤ 16) (hC : C < 2 ^ L)
    (htol : s.nReceiveTolerance = 60)
    (h0 : s.timings[0]?
      = some (((protoAt (p - 1)).pulseLength * syncMax (protoAt (p - 1))) % 65536))
    (hjit : ∀ j e, firstData (protoAt (p - 1)) ≤ j → j < firstData (protoAt (p - 1)) + 2 * L →
      (capture (protoAt (p - 1)) C L)[j]? = some e →
      ∃ v, s.timings[j]? = some v ∧ v < e + jitterBound (protoAt (p - 1))
        ∧ e < v + jitterBound (protoAt (p - 1))) :
    receiveProtocol s p (2 * L + 2) = some (true,
      { s with
        nReceivedValue := (C : Int)
        nReceivedBitlength := L
        nReceivedDelay := (protoAt (p - 1)).pulseLength
        nReceivedProtocol := p }) := by
  obtain ⟨hlook, hmem⟩ := proto_lookup p hp
  obtain ⟨hdelay, _⟩ := proto_exact _ hmem
  obtain ⟨_, rk⟩ := capture_read (protoAt (p - 1)) C L []
  rw [List.append_nil] at rk
  have hbound : (65535 + (2 * L + 2)) % 65536 = 2 * L + 1 := by omega
  have hread : ∀ k b, (codeBits C L)[k]? = some b →
      ∃ t0 t1, s.timings[firstData (protoAt (p - 1)) + 2 * k]? = some t0
        ∧ s.timings[firstData (protoAt (p - 1)) + 2 * k + 1]? = some t1
        ∧ pairBit (protoAt (p - 1)) (protoAt (p - 1)).pulseLength
            (((protoAt (p - 1)).pulseLength * 60) % 65536 / 100) t0 t1 = some b := by
    intro k b hk
    have hkL : k < L := by
      have := (List.getElem?_eq_some.1 hk).1
      rwa [length_codeBits] at this
    obtain ⟨e0, e1⟩ := rk k b hk
    obtain ⟨v0, hv0, a0, b0⟩ := hjit _ _ (by omega) (by omega) e0
    obtain ⟨v1, hv1, a1, b1⟩ := hjit _ _ (by omega) (by omega) e1
    exact ⟨v0, v1, hv0, hv1, proto_jitter _ hmem b v0 v1 a0 b0 a1 b1⟩
  have hfirst : firstData (protoAt (p - 1)) = 1 ∨ firstData (protoAt (p - 1)) = 2 := by
    unfold firstData; split <;> simp
  have hloop := receiveLoop_decoded s.timings (protoAt (p - 1)) (protoAt (p - 1)).pulseLength
    (((protoAt (p - 1)).pulseLength * 60) % 65536 / 100) (2 * L + 1) (codeBits C L)
    (firstData (protoAt (p - 1))) 0
    (by rw [length_codeBits]; simp only [RCSWITCH_MAX_CHANGES]; omega)
    (by rw [length_codeBits]; omega) (by rw [length_codeBits]; omega) hread
  have h := receiveProtocol_decoded s p (2 * L + 2) (protoAt (p - 1)) _
    (pushBits 0 (codeBits C L)) hlook h0
    (by rw [hdelay, htol, hbound]; exact hloop) (by omega)
  rw [h, hdelay, hbound, pushBits_codeBits C L hL.2 hC]
  have : (2 * L + 1) / 2 = L := by omega
  rw [this]

/-- Witness for C8: the capture `jitteredCapture` of code 5 on 3 bits under
protocol 2, every data slot of which is 260 microseconds away from its
jitter-free duration. -/
theorem receiveProtocol_jitter_witness :
    receiveProtocol (receiverWith jitteredCapture) 2 (2 * 3 + 2)
      = some (true,
        { receiverWith jitteredCapture with
          nReceivedValue := ((5 : Nat) : Int)
          nReceivedBitlength := 3
          nReceivedDelay := (protoAt (2 - 1)).pulseLength
          nReceivedProtocol := 2 }) :=
  receiveProtocol_jitter (receiverWith jitteredCapture) 2 3 5 (by decide) (by decide)
    (by decide) rfl rfl
    (by
      intro j e h1 h2 he
      have h1a : 1 ≤ j := h1
      have h2a : j < 7 := h2
      rw [show capture (protoAt (2 - 1)) 5 3 = [6500, 1300, 650, 650, 1300, 1300, 650, 650]
        from by decide] at he
      interval_cases j <;> simp at he <;> subst he <;> exact ⟨_, rfl, by decide, by decide⟩)

/-- C8 fails as stated under protocol 2: in `jitterCapture` every data slot
is within 300 microseconds of the jitter-free capture of code 1 on 3 bits,
less than the tolerance 390, yet `receiveProtocol(2, 8)` returns true and
publishes the value 0: the last pair also matches the zero description,
which is tested first. -/
theorem receiveProtocol_jitter_fails_protocol2 :
    capture (protoAt 1) 1 3 = [6500, 650, 1300, 650, 1300, 1300, 650, 650]
    ∧ ((protoAt 1).pulseLength * 60) % 65536 / 100 = 390
    ∧ jitterCapture[0]? = (capture (protoAt 1) 1 3)[0]?
    ∧ (∀ j, j < 8 → jitterCapture.getD j 0 < (capture (protoAt 1) 1 3).getD j 0 + 390
        ∧ (capture (protoAt 1) 1 3).getD j 0 < jitterCapture.getD j 0 + 390)
    ∧ receiveProtocol (receiverWith jitterCapture) 2 (2 * 3 + 2)
      = some (true,
        { receiverWith jitterCapture with
          nReceivedValue := 0
          nReceivedBitlength := 3
          nReceivedDelay := 650
          nReceivedProtocol := 2 }) := by
  rw [receiveProtocol_eq_steps]
  decide

/-! ### Results of `receiveProtocol` and the consumer interface -/

/-- A call of `receiveProtocol` that returns false leaves the globals
unchanged. -/
theorem receiveProtocol_false_state (s s2 : State) (p c : Nat)
    (h : receiveProtocol s p c = some (false, s2)) : s2 = s := by
  unfold receiveProtocol at h
  split at h
  · simp only at h
    split at h
    · cases h
    · cases h; rfl
    · split at h
      · cases h
      · cases h; rfl
  · cases h

/-- A call of `receiveProtocol` that returns true had `changeCount > 7` and
published a code, the protocol index and the bit length. -/
theorem receiveProtocol_true_state (s s2 : State) (p c : Nat)
    (h : receiveProtocol s p c = some (true, s2)) :
    ∃ code : Nat, s2.nReceivedValue = (code : Int) ∧ s2.nReceivedProtocol = p
      ∧ s2.nReceivedBitlength = ((65535 + c) % 65536) / 2 ∧ c > 7 := by
  unfold receiveProtocol at h
  split at h
  · simp only at h
    split at h
    · cases h
    · cases h
    · rename_i code _
      split at h
      · rename_i hc
        cases h
        exact ⟨code, rfl, rfl, rfl, hc⟩
      · cases h
  · cases h

/-- On a buffer of 67 slots the loop stays inside the buffer whenever its
bound is below 67, that is for `changeCount` in 1..67. -/
theorem receiveLoop_no_fault (timings : List Nat) (pro : Protocol) (delay tol bound : Nat)
    (hlen : timings.length = RCSWITCH_MAX_CHANGES) (hb : bound < RCSWITCH_MAX_CHANGES) :
    ∀ (n i code : Nat), RCSWITCH_MAX_CHANGES - i ≤ n →
      receiveLoop timings pro delay tol bound i code ≠ Scan.fault := by
  intro n
  induction n with
  | zero =>
    intro i code h
    rw [receiveLoop, if_neg (by omega)]
    simp
  | succ n ih =>
    intro i code h
    rw [receiveLoop]
    by_cases hi : i < bound
    · have h1 : i + 1 < RCSWITCH_MAX_CHANGES := by omega
      have hmod : (i + 2) % 65536 = i + 2 := by
        simp only [RCSWITCH_MAX_CHANGES] at h1; omega
      rw [if_pos hi, dif_pos h1, List.getElem?_eq_getElem (by omega),
        List.getElem?_eq_getElem (by omega)]
      simp only [hmod]
      split
      · exact ih _ _ (by omega)
      · split
        · exact ih _ _ (by omega)
        · simp
    · rw [if_neg hi]
      simp

/-- For `changeCount` in 1..7 and a buffer of 67 slots `receiveProtocol`
returns false and publishes nothing. -/
theorem receiveProtocol_short (s : State) (p c : Nat) (hp : 1 ≤ p ∧ p ≤ 6)
    (hlen : s.timings.length = RCSWITCH_MAX_CHANGES) (hc : 1 ≤ c ∧ c ≤ 7) :
    receiveProtocol s p c = some (false, s) := by
  obtain ⟨hlook, _⟩ := proto_lookup p hp
  obtain ⟨sync, h0⟩ : ∃ sync, s.timings[0]? = some sync :=
    ⟨_, List.getElem?_eq_getElem (by rw [hlen]; decide)⟩
  have hbound : (65535 + c) % 65536 < RCSWITCH_MAX_CHANGES := by
    simp only [RCSWITCH_MAX_CHANGES]; omega
  unfold receiveProtocol
  rw [hlook, h0]
  simp only
  split
  · rename_i hf
    exact absurd hf (receiveLoop_no_fault _ _ _ _ _ hlen hbound _ _ _ (le_refl _))
  · rfl
  · rw [if_neg (by omega)]

/-- C6 (amended): `available()` tests `nReceivedValue != 0`.  If
`receiveProtocol` returns true and the value it published is not 0, then
`available()` returns true immediately afterwards and still does after any
failed decode attempt; after `resetAvailable()` it returns false and still
does after any failed decode attempt; after a later successful decode it
returns true exactly when the newly published value is not 0. -/
theorem available_after_decode (s s1 : State) (p c : Nat)
    (h : receiveProtocol s p c = some (true, s1)) (hv : s1.nReceivedValue ≠ 0) :
    available s1 = true
    ∧ (∀ p2 c2 s2, receiveProtocol s1 p2 c2 = some (false, s2) → available s2 = true)
    ∧ available (resetAvailable s1) = false
    ∧ (∀ p2 c2 s2, receiveProtocol (resetAvailable s1) p2 c2 = some (false, s2) →
        available s2 = false)
    ∧ (∀ p2 c2 s2, receiveProtocol (resetAvailable s1) p2 c2 = some (true, s2) →
        (available s2 = true ↔ s2.nReceivedValue ≠ 0))
    ∧ c > 7 ∧ s1.nReceivedProtocol = p := by
  have hav : available s1 = true := by simp [available, hv]
  obtain ⟨_, _, hpr, _, hc⟩ := receiveProtocol_true_state s s1 p c h
  refine ⟨hav, ?_, by simp [available, resetAvailable], ?_, ?_, hc, hpr⟩
  · intro p2 c2 s2 h2
    rw [receiveProtocol_false_state _ _ _ _ h2]
    exact hav
  · intro p2 c2 s2 h2
    rw [receiveProtocol_false_state _ _ _ _ h2]
    simp [available, resetAvailable]
  · intro p2 c2 s2 _
    simp [available]

/-- Witness for C6: the decode of the capture of code 5 on 3 bits under
protocol 1. -/
theorem available_after_decode_witness :
    available
        { receiverWith (capture (protoAt (1 - 1)) 5 3 ++ List.replicate 59 0) with
          nReceivedValue := ((5 : Nat) : Int)
          nReceivedBitlength := 3
          nReceivedDelay := (protoAt (1 - 1)).pulseLength
          nReceivedProtocol := 1 } = true
    ∧ available (resetAvailable
        { receiverWith (capture (protoAt (1 - 1)) 5 3 ++ List.replicate 59 0) with
          nReceivedValue := ((5 : Nat) : Int)
          nReceivedBitlength := 3
          nReceivedDelay := (protoAt (1 - 1)).pulseLength
          nReceivedProtocol := 1 }) = false :=
  have h := available_after_decode
    (receiverWith (capture (protoAt (1 - 1)) 5 3 ++ List.replicate 59 0))
    { receiverWith (capture (protoAt (1 - 1)) 5 3 ++ List.replicate 59 0) with
      nReceivedValue := ((5 : Nat) : Int)
      nReceivedBitlength := 3
      nReceivedDelay := (protoAt (1 - 1)).pulseLength
      nReceivedProtocol := 1 }
    1 (2 * 3 + 2)
    (receiveProtocol_capture _ 1 3 5 (List.replicate 59 0) (by decide) (by decide) (by decide)
      rfl rfl)
    (by decide)
  ⟨h.1, h.2.2.1⟩

/-- C6 fails as stated: the capture of code 0 on 3 bits under protocol 1
decodes successfully (`receiveProtocol(1, 8)` returns true and publishes value
0, bit length 3), and `available()` returns false right afterwards. -/
theorem available_false_after_decode_of_zero :
    receiveProtocol (receiverWith (capture (protoAt 0) 0 3 ++ List.replicate 59 0)) 1 8
      = some (true,
        { receiverWith (capture (protoAt 0) 0 3 ++ List.replicate 59 0) with
          nReceivedValue := 0
          nReceivedBitlength := 3
          nReceivedDelay := 350
          nReceivedProtocol := 1 })
    ∧ available
        { receiverWith (capture (protoAt 0) 0 3 ++ List.replicate 59 0) with
          nReceivedValue := 0
          nReceivedBitlength := 3
          nReceivedDelay := 350
          nReceivedProtocol := 1 } = false := by
  rw [receiveProtocol_eq_steps]
  decide

/-- C7: for every protocol index in 1..6, every content of the timing buffer
and every `changeCount ≤ 7`, a call of `receiveProtocol` never returns true:
whenever the call returns, it returns false and leaves the globals, the
decoded result among them, unchanged; and on a buffer of 67 slots with
`changeCount` in 1..7, the counts the handler can pass, the call does return
false. -/
theorem receiveProtocol_noise_guard (s : State) (p c : Nat) (hp : 1 ≤ p ∧ p ≤ 6)
    (hc : c ≤ 7) :
    (∀ r, receiveProtocol s p c = some r → r = (false, s))
    ∧ (s.timings.length = RCSWITCH_MAX_CHANGES → 1 ≤ c →
        receiveProtocol s p c = some (false, s)) := by
  refine ⟨?_, fun hlen h1 => receiveProtocol_short s p c hp hlen ⟨h1, hc⟩⟩
  rintro ⟨b, s1⟩ h
  cases b with
  | false => rw [receiveProtocol_false_state s s1 p c h]
  | true =>
    obtain ⟨_, _, _, _, h7⟩ := receiveProtocol_true_state s s1 p c h
    omega

/-- Witness for C7: protocol 1 with `changeCount = 7` on the buffer
`zeroPairsBuffer`, in which every pair matches the zero description: the loop
accepts its three pairs and the guard `changeCount > 7` returns false. -/
theorem receiveProtocol_noise_guard_witness :
    (∀ r, receiveProtocol (receiverWith zeroPairsBuffer) 1 7 = some r →
        r = (false, receiverWith zeroPairsBuffer))
    ∧ ((receiverWith zeroPairsBuffer).timings.length = RCSWITCH_MAX_CHANGES → 1 ≤ 7 →
        receiveProtocol (receiverWith zeroPairsBuffer) 1 7
          = some (false, receiverWith zeroPairsBuffer)) :=
  receiveProtocol_noise_guard (receiverWith zeroPairsBuffer) 1 7 (by decide) (by decide)

/-- With `changeCount = 0` the loop bound `changeCount - 1` wraps to 65535; on
the 67-slot buffer `zeroPairsBuffer`, whose 33 pairs all match, the loop of
`receiveProtocol(1, 0)` runs past the end of `timings` (the result `none`);
no value is published. -/
theorem receiveProtocol_zero_count_overruns :
    zeroPairsBuffer.length = RCSWITCH_MAX_CHANGES
    ∧ (65535 + 0) % 65536 = 65535
    ∧ receiveProtocol (receiverWith zeroPairsBuffer) 1 0 = none
    ∧ receiveProtocol (receiverWith zeroPairsBuffer) 1 0
        ≠ some (false, receiverWith zeroPairsBuffer) := by
  rw [receiveProtocol_eq_steps]
  decide

/-! ### Durations of the built-in protocols -/

/-- C19 (amended): for each of the six table entries every data-pulse
duration `pulseLength * {zero, one}.{high, low}` is at most the separation
limit 4300, and the long sync duration `pulseLength * max(sync.high, sync.low)`
is greater than the separation limit exactly for the protocols other than
protocol 4. -/
theorem sync_gap_and_separation_limit (p : Nat) (hp : 1 ≤ p ∧ p ≤ 6) :
    ((protoAt (p - 1)).pulseLength * syncMax (protoAt (p - 1)) > nSeparationLimit ↔ p ≠ 4)
    ∧ ∀ f ∈ dataFactors (protoAt (p - 1)),
        (protoAt (p - 1)).pulseLength * f ≤ nSeparationLimit := by
  obtain ⟨h1, h6⟩ := hp
  interval_cases p <;> decide

/-- Witness for C19: protocol 1. -/
theorem sync_gap_and_separation_limit_witness :
    ((protoAt (1 - 1)).pulseLength * syncMax (protoAt (1 - 1)) > nSeparationLimit ↔ 1 ≠ 4)
    ∧ ∀ f ∈ dataFactors (protoAt (1 - 1)),
        (protoAt (1 - 1)).pulseLength * f ≤ nSeparationLimit :=
  sync_gap_and_separation_limit 1 (by decide)

/-- C19 fails as stated for protocol 4: its long sync duration is
`380 * 6 = 2280` microseconds, which does not exceed the separation limit
4300, so the handler's test `duration > nSeparationLimit` does not fire. -/
theorem protocol4_sync_gap_below_limit :
    proto[3]? = some (protoAt 3)
    ∧ (protoAt 3).pulseLength * syncMax (protoAt 3) = 2280
    ∧ nSeparationLimit = 4300
    ∧ ¬ ((protoAt 3).pulseLength * syncMax (protoAt 3) > nSeparationLimit) := by
  decide

/-- C20: for each of the six built-in protocols and each factor of its sync,
zero and one descriptions, the 16-bit product `pulseLength * factor` that
`transmit` passes to `delay_us` is the exact product, it is at most 16383,
and the scaling of `delay_us` (`us << 2` at 16 MHz, `us << 1` at 8 MHz) gives
the exact multiples `4 * us` and `2 * us` on 16 bits. -/
theorem transmit_durations_exact (p : Nat) (hp : 1 ≤ p ∧ p ≤ 6) :
    ∀ f ∈ pairFactors (protoAt (p - 1)),
      ((protoAt (p - 1)).pulseLength * f) % 65536 = (protoAt (p - 1)).pulseLength * f
      ∧ (protoAt (p - 1)).pulseLength * f ≤ 16383
      ∧ delayScale Clock.mhz16 (((protoAt (p - 1)).pulseLength * f) % 65536)
          = 4 * ((protoAt (p - 1)).pulseLength * f)
      ∧ delayScale Clock.mhz8 (((protoAt (p - 1)).pulseLength * f) % 65536)
          = 2 * ((protoAt (p - 1)).pulseLength * f) := by
  obtain ⟨h1, h6⟩ := hp
  interval_cases p <;> decide

/-- Witness for C20: the long sync factor 23 of protocol 6. -/
theorem transmit_durations_exact_witness :
    ((protoAt (6 - 1)).pulseLength * 23) % 65536 = (protoAt (6 - 1)).pulseLength * 23
    ∧ (protoAt (6 - 1)).pulseLength * 23 ≤ 16383
    ∧ delayScale Clock.mhz16 (((protoAt (6 - 1)).pulseLength * 23) % 65536)
        = 4 * ((protoAt (6 - 1)).pulseLength * 23)
    ∧ delayScale Clock.mhz8 (((protoAt (6 - 1)).pulseLength * 23) % 65536)
        = 2 * ((protoAt (6 - 1)).pulseLength * 23) :=
  transmit_durations_exact 6 (by decide) 23 (by decide)

/-! ### The tolerance of the matcher -/

/-- The loop of `receiveProtocol` is entered with the unit estimate and the
tolerance given by `unitEstimate` and `toleranceOf`. -/
theorem receiveProtocol_uses_tolerance (s : State) (p changeCount : Nat) (pro : Protocol)
    (sync : Nat) (hp : proto[(65535 + p) % 65536]? = some pro)
    (h0 : s.timings[0]? = some sync) :
    receiveProtocol s p changeCount =
      match receiveLoop s.timings pro (unitEstimate pro sync)
          (toleranceOf s.nReceiveTolerance (unitEstimate pro sync))
          ((65535 + changeCount) % 65536) (if pro.invertedSignal then 2 else 1) 0 with
      | Scan.fault => none
      | Scan.failed => some (false, s)
      | Scan.decoded code =>
        if changeCount > 7 then
          some (true,
            { s with
              nReceivedValue := (code : Int)
              nReceivedBitlength := ((65535 + changeCount) % 65536) / 2
              nReceivedDelay := unitEstimate pro sync
              nReceivedProtocol := p })
        else some (false, s) := by
  unfold receiveProtocol
  rw [hp, h0]
  rfl

/-- The 16-bit tolerance is 60% of the unit estimate as long as the unit
estimate is at most 1092, the largest value whose product with 60 fits 16
bits. -/
theorem toleranceOf_exact (delay : Nat) (h : delay ≤ 1092) :
    toleranceOf 60 delay = delay * 60 / 100 := by
  unfold toleranceOf
  rw [Nat.mod_eq_of_lt (by omega)]

/-- C16: under protocol 4 the sync duration 6558 gives the unit estimate 1093,
whose product with 60 wraps on 16 bits: the tolerance `receiveProtocol` uses is
0 instead of 655, and the capture `wideUnitBuffer` of three exact zero pairs
is rejected. -/
theorem tolerance_wraps_for_unit_1093 :
    unitEstimate (protoAt 3) 6558 = 1093
    ∧ toleranceOf 60 (unitEstimate (protoAt 3) 6558) = 0
    ∧ unitEstimate (protoAt 3) 6558 * 60 / 100 = 655
    ∧ receiveProtocol (receiverWith wideUnitBuffer) 4 8
        = some (false, receiverWith wideUnitBuffer) := by
  rw [receiveProtocol_eq_steps]
  decide

/-! ### The decode coordinator -/

/-- On a buffer of 67 slots and for `changeCount` in 1..67, a call of
`receiveProtocol` for a table protocol either returns false and leaves the
globals unchanged, or returns true (then `changeCount > 7`) and publishes the
four fields of the decoded result, the delay being the unit estimate. -/
theorem receiveProtocol_cases (s : State) (p c : Nat) (hp : 1 ≤ p ∧ p ≤ 6)
    (hlen : s.timings.length = RCSWITCH_MAX_CHANGES) (hc : 1 ≤ c ∧ c ≤ 67) :
    receiveProtocol s p c = some (false, s)
    ∨ ∃ code : Nat, c > 7 ∧ receiveProtocol s p c = some (true,
        { s with
          nReceivedValue := (code : Int)
          nReceivedBitlength := ((65535 + c) % 65536) / 2
          nReceivedDelay := unitEstimate (protoAt (p - 1)) (s.timings.getD 0 0)
          nReceivedProtocol := p }) := by
  obtain ⟨hlook, _⟩ := proto_lookup p hp
  have h0 : s.timings[0]? = some (s.timings.getD 0 0) := by
    rw [List.getD_eq_getElem?_getD, List.getElem?_eq_getElem (by rw [hlen]; decide)]
    rfl
  have hbound : (65535 + c) % 65536 < RCSWITCH_MAX_CHANGES := by
    simp only [RCSWITCH_MAX_CHANGES]; omega
  rw [receiveProtocol_uses_tolerance s p c _ _ hlook h0]
  split
  · rename_i hf
    exact absurd hf (receiveLoop_no_fault _ _ _ _ _ hlen hbound _ _ _ (le_refl _))
  · exact Or.inl rfl
  · rename_i code _
    by_cases h7 : c > 7
    · rw [if_pos h7]
      exact Or.inr ⟨code, h7, rfl⟩
    · rw [if_neg h7]
      exact Or.inl rfl

/-- The protocol loop stops at the first index whose `receiveProtocol` call
succeeds and returns the state that call published; when no call succeeds
the globals are unchanged. -/
theorem tryProtocols_spec (c : Nat) (s : State)
    (hlen : s.timings.length = RCSWITCH_MAX_CHANGES) (hc : 1 ≤ c ∧ c ≤ 67) :
    ∀ (n i : Nat), 1 ≤ i → i + n ≤ 7 →
      ∃ s1, tryProtocols c n i s = some s1 ∧
        ((∃ p, i ≤ p ∧ p < i + n ∧ receiveProtocol s p c = some (true, s1)
            ∧ ∀ q, i ≤ q → q < p → receiveProtocol s q c = some (false, s))
          ∨ (s1 = s ∧ ∀ q, i ≤ q → q < i + n → receiveProtocol s q c = some (false, s))) := by
  intro n
  induction n with
  | zero =>
    intro i _ _
    exact ⟨s, rfl, Or.inr ⟨rfl, fun q h1 h2 => absurd h2 (by omega)⟩⟩
  | succ n ih =>
    intro i hi hn
    rcases receiveProtocol_cases s i c ⟨hi, by omega⟩ hlen hc with hf | ⟨code, _, ht⟩
    · obtain ⟨s1, hs1, hres⟩ := ih (i + 1) (by omega) (by omega)
      refine ⟨s1, by simp only [tryProtocols, hf, hs1], ?_⟩
      rcases hres with ⟨p, hp1, hp2, hp3, hp4⟩ | ⟨he, hall⟩
      · refine Or.inl ⟨p, by omega, by omega, hp3, ?_⟩
        intro q hq1 hq2
        by_cases hqi : q = i
        · rw [hqi]; exact hf
        · exact hp4 q (by omega) hq2
      · refine Or.inr ⟨he, ?_⟩
        intro q hq1 hq2
        by_cases hqi : q = i
        · rw [hqi]; exact hf
        · exact hall q (by omega) (by omega)
    · refine ⟨_, by simp only [tryProtocols, ht], Or.inl ⟨i, le_refl _, by omega, ht, ?_⟩⟩
      intro q h1 h2
      omega

/-- C11: on a buffer of 67 slots and for every `changeCount` in 1..67 the
protocol loop of the INT0 handler ends in a state `s1` such that either some
index `p` in 1..6 is the smallest one whose `receiveProtocol` call succeeds,
`s1` is the state that call published and `nReceivedProtocol = p`; or no index
succeeds and the globals, the decoded result among them, are unchanged. -/
theorem tryProtocols_first_success (s : State) (c : Nat)
    (hlen : s.timings.length = RCSWITCH_MAX_CHANGES) (hc : 1 ≤ c ∧ c ≤ 67) :
    ∃ s1, tryProtocols c numProto 1 s = some s1 ∧
      ((∃ p, 1 ≤ p ∧ p ≤ 6 ∧ receiveProtocol s p c = some (true, s1)
          ∧ s1.nReceivedProtocol = p
          ∧ ∀ q, 1 ≤ q → q < p → receiveProtocol s q c = some (false, s))
        ∨ (s1 = s ∧ ∀ q, 1 ≤ q → q ≤ 6 → receiveProtocol s q c = some (false, s))) := by
  obtain ⟨s1, hs1, hres⟩ := tryProtocols_spec c s hlen hc 6 1 (le_refl _) (by decide)
  refine ⟨s1, hs1, ?_⟩
  rcases hres with ⟨p, hp1, hp2, hp3, hp4⟩ | ⟨he, hall⟩
  · obtain ⟨_, _, hpr, _, _⟩ := receiveProtocol_true_state s s1 p c hp3
    exact Or.inl ⟨p, hp1, by omega, hp3, hpr, hp4⟩
  · exact Or.inr ⟨he, fun q h1 h2 => hall q h1 (by omega)⟩

/-- Witness for C11: the buffer holding the capture of code 5 on 3 bits under
protocol 1. -/
theorem tryProtocols_first_success_witness :
    ∃ s1, tryProtocols 8 numProto 1
        (receiverWith (capture (protoAt 0) 5 3 ++ List.replicate 59 0)) = some s1 ∧
      ((∃ p, 1 ≤ p ∧ p ≤ 6
          ∧ receiveProtocol (receiverWith (capture (protoAt 0) 5 3 ++ List.replicate 59 0)) p 8
              = some (true, s1)
          ∧ s1.nReceivedProtocol = p
          ∧ ∀ q, 1 ≤ q → q < p →
              receiveProtocol (receiverWith (capture (protoAt 0) 5 3 ++ List.replicate 59 0)) q 8
                = some (false, receiverWith (capture (protoAt 0) 5 3 ++ List.replicate 59 0)))
        ∨ (s1 = receiverWith (capture (protoAt 0) 5 3 ++ List.replicate 59 0)
          ∧ ∀ q, 1 ≤ q → q ≤ 6 →
              receiveProtocol (receiverWith (capture (protoAt 0) 5 3 ++ List.replicate 59 0)) q 8
                = some (false,
                  receiverWith (capture (protoAt 0) 5 3 ++ List.replicate 59 0)))) :=
  tryProtocols_first_success (receiverWith (capture (protoAt 0) 5 3 ++ List.replicate 59 0)) 8
    (by decide) (by decide)

/-! ### The INT0 handler -/

theorem tryProtocols_timings (c : Nat) :
    ∀ (n i : Nat) (s s1 : State), tryProtocols c n i s = some s1 → s1.timings = s.timings := by
  intro n
  induction n with
  | zero =>
    intro i s s1 h
    simp only [tryProtocols, Option.some.injEq] at h
    rw [h]
  | succ n ih =>
    intro i s s1 h
    simp only [tryProtocols] at h
    split at h
    · cases h
    · rename_i s2 hr
      cases h
      unfold receiveProtocol at hr
      split at hr
      · simp only at hr
        split at hr
        · cases hr
        · cases hr
        · split at hr
          · cases hr; rfl
          · cases hr
      · cases hr
    · rename_i s2 hr
      rw [ih _ _ _ h, receiveProtocol_false_state _ _ _ _ hr]

/-- The handler on an edge that is not longer than the separation limit: the
gap block is skipped. -/
theorem handleEdge_short (h : Isr) (d : Nat) (hd : ¬ d > nSeparationLimit) :
    handleEdge h d = some ((storePhase h d).1,
      { gap := false, decoded := false, overflowed := (storePhase h d).2.1,
        slot := (storePhase h d).2.2 }) := by
  simp only [handleEdge, gapPhase, gapTest, if_neg hd, decide_eq_false hd, Bool.false_and]

/-- The handler on a long edge that is not within 200 of slot 0: the write
index restarts and the repeat counter keeps its value. -/
theorem handleEdge_mismatch (h : Isr) (d t0 : Nat) (hd : d > nSeparationLimit)
    (h0 : h.globals.timings[0]? = some t0) (hdiff : ¬ diff d t0 < 200) :
    handleEdge h d = some (
      { h with
        globals := { h.globals with timings := h.globals.timings.set 0 d }
        changeCount := 1 },
      { gap := false, decoded := false, overflowed := false, slot := 0 }) := by
  simp only [handleEdge, gapPhase, gapTest, if_pos hd, h0, if_neg hdiff, decide_eq_false hdiff,
    Bool.and_false, storePhase, RCSWITCH_MAX_CHANGES]
  rfl

/-- The handler on a first matching gap (repeat counter 0 before): the repeat
counter becomes 1 and no decode is attempted. -/
theorem handleEdge_first_gap (h : Isr) (d t0 : Nat) (hd : d > nSeparationLimit)
    (h0 : h.globals.timings[0]? = some t0) (hdiff : diff d t0 < 200)
    (hrc : h.repeatCount = 0) :
    handleEdge h d = some (
      { h with
        globals := { h.globals with timings := h.globals.timings.set 0 d }
        changeCount := 1
        repeatCount := 1 },
      { gap := true, decoded := false, overflowed := false, slot := 0 }) := by
  simp only [handleEdge, gapPhase, gapTest, if_pos hd, h0, if_pos hdiff, decide_eq_true hd,
    decide_eq_true hdiff, Bool.and_self, storePhase, RCSWITCH_MAX_CHANGES, hrc]
  rfl

/-- The handler on a second matching gap (repeat counter 1 before): the
protocol loop runs on the recorded `changeCount` and the repeat counter
returns to 0. -/
theorem handleEdge_second_gap (h : Isr) (d t0 : Nat) (hd : d > nSeparationLimit)
    (h0 : h.globals.timings[0]? = some t0) (hdiff : diff d t0 < 200)
    (hrc : h.repeatCount = 1) (g : State)
    (hg : tryProtocols h.changeCount numProto 1 h.globals = some g) :
    handleEdge h d = some (
      { h with
        globals := { g with timings := g.timings.set 0 d }
        changeCount := 1
        repeatCount := 0 },
      { gap := true, decoded := true, overflowed := false, slot := 0 }) := by
  simp only [handleEdge, gapPhase, gapTest, if_pos hd, h0, if_pos hdiff, decide_eq_true hd,
    decide_eq_true hdiff, Bool.and_self, storePhase, RCSWITCH_MAX_CHANGES, hrc, hg]
  rfl
theorem gapTest_eq (h : Isr) (d t0 : Nat) (h0 : h.globals.timings[0]? = some t0) :
    gapTest h d = (decide (d > nSeparationLimit) && decide (diff d t0 < 200)) := by
  simp only [gapTest, h0]

/-- One run of the handler from a state satisfying `IsrInv`: it reads inside
its arrays, keeps `IsrInv`, and the record of the run is related to the state
before and after as stated. -/
theorem handleEdge_step (h : Isr) (hinv : IsrInv h) (d : Nat) :
    ∃ h1 e, handleEdge h d = some (h1, e) ∧ IsrInv h1
      ∧ e.gap = gapTest h d
      ∧ (e.decoded = true ↔ (e.gap = true ∧ h.repeatCount = 1))
      ∧ (e.decoded = true → h1.repeatCount = 0 ∧ 1 ≤ h.changeCount)
      ∧ e.slot < RCSWITCH_MAX_CHANGES
      ∧ h1.changeCount = e.slot + 1
      ∧ h1.globals.timings[e.slot]? = some d
      ∧ (e.overflowed = true ↔ (¬ d > nSeparationLimit ∧ h.changeCount = RCSWITCH_MAX_CHANGES))
      ∧ (e.overflowed = true → h1.repeatCount = 0 ∧ e.slot = 0)
      ∧ (e.overflowed = false →
          h1.repeatCount = (h.repeatCount + (if e.gap = true then 1 else 0)) % 2)
      ∧ (d > nSeparationLimit → e.slot = 0) := by
  obtain ⟨hlen, hcc, hrc, hrc1⟩ := hinv
  have hlen0 : 0 < h.globals.timings.length := by rw [hlen]; decide
  have h0 : h.globals.timings[0]? = some (h.globals.timings[0]) := List.getElem?_eq_getElem hlen0
  by_cases hd : d > nSeparationLimit
  · by_cases hdiff : diff d (h.globals.timings[0]) < 200
    · have hgap : gapTest h d = true := by
        rw [gapTest_eq h d _ h0]; simp [hd, hdiff]
      by_cases hr : h.repeatCount = 1
      · have hc1 := hrc1 hr
        obtain ⟨g, hg, _⟩ := tryProtocols_spec h.changeCount h.globals hlen
          ⟨hc1, by simpa [RCSWITCH_MAX_CHANGES] using hcc⟩ 6 1 (le_refl _) (by decide)
        have hgt := tryProtocols_timings _ _ _ _ _ hg
        refine ⟨_, _, handleEdge_second_gap h d _ hd h0 hdiff hr g hg, ?_, hgap.symm, ?_⟩
        · refine ⟨?_, ?_, ?_, ?_⟩ <;> simp [RCSWITCH_MAX_CHANGES, hgt, hlen]
        · simp [hgap, hr, hc1, hd, RCSWITCH_MAX_CHANGES, hgt, hlen]
      · have hr0 : h.repeatCount = 0 := by omega
        refine ⟨_, _, handleEdge_first_gap h d _ hd h0 hdiff hr0, ?_, hgap.symm, ?_⟩
        · refine ⟨?_, ?_, ?_, ?_⟩ <;> simp [RCSWITCH_MAX_CHANGES, hlen]
        · simp [hgap, hr0, hd, RCSWITCH_MAX_CHANGES, hlen]
    · have hgap : gapTest h d = false := by
        rw [gapTest_eq h d _ h0]; simp [hdiff]
      refine ⟨_, _, handleEdge_mismatch h d _ hd h0 hdiff, ?_, hgap.symm, ?_⟩
      · refine ⟨?_, ?_, ?_, ?_⟩
        · simp [RCSWITCH_MAX_CHANGES, hlen]
        · simp [RCSWITCH_MAX_CHANGES]
        · exact hrc
        · intro _; exact le_refl _
      · have : h.repeatCount % 2 = h.repeatCount := by omega
        simp [hgap, hd, RCSWITCH_MAX_CHANGES, hlen, this]
  · have hgap : gapTest h d = false := by
      rw [gapTest_eq h d _ h0]; simp [hd]
    refine ⟨_, _, handleEdge_short h d hd, ?_, hgap.symm, ?_⟩
    · by_cases hov : h.changeCount ≥ RCSWITCH_MAX_CHANGES
      · refine ⟨?_, ?_, ?_, ?_⟩ <;> simp [storePhase, hov, hlen]
        simp [RCSWITCH_MAX_CHANGES]
      · have hlt : h.changeCount < 67 := by simpa [RCSWITCH_MAX_CHANGES] using hov
        have hmod : (h.changeCount + 1) % 65536 = h.changeCount + 1 := by omega
        refine ⟨?_, ?_, ?_, ?_⟩ <;> simp [storePhase, hov, hlen, hmod]
        · simp [RCSWITCH_MAX_CHANGES]; omega
        · exact hrc
    · by_cases hov : h.changeCount ≥ RCSWITCH_MAX_CHANGES
      · have heq : h.changeCount = RCSWITCH_MAX_CHANGES := le_antisymm hcc hov
        simp [storePhase, hov, hlen, hd, heq, RCSWITCH_MAX_CHANGES]
      · have hlt : h.changeCount < 67 := by simpa [RCSWITCH_MAX_CHANGES] using hov
        have hmod : (h.changeCount + 1) % 65536 = h.changeCount + 1 := by omega
        have : h.repeatCount % 2 = h.repeatCount := by omega
        have hne : h.changeCount ≠ 67 := by omega
        have hn : ¬ 67 ≤ h.changeCount := by omega
        simp [storePhase, hov, hlen, hd, hmod, hlt, this, RCSWITCH_MAX_CHANGES, hne, hn]

/-- A run of the handler on any sequence of edges from a state satisfying
`IsrInv`: every run reads inside its arrays and stores below slot 67, a decode
happens only on an edge passing the gap test, and as long as no overflow
branch is taken the decodes so far are half of the passed gap tests so far
(counting the one pending in the repeat counter). -/
theorem runEdges_inv : ∀ (edges : List Nat) (h : Isr), IsrInv h →
    ∃ h2 es, runEdges h edges = some (h2, es) ∧ IsrInv h2 ∧ es.length = edges.length
      ∧ (∀ e ∈ es, e.slot < RCSWITCH_MAX_CHANGES)
      ∧ (∀ e ∈ es, e.decoded = true → e.gap = true)
      ∧ ((∀ e ∈ es, e.overflowed = false) →
          ∀ n, (es.take n).countP (fun e => e.decoded)
            = ((es.take n).countP (fun e => e.gap) + h.repeatCount) / 2) := by
  intro edges
  induction edges with
  | nil =>
    intro h hinv
    refine ⟨h, [], rfl, hinv, rfl, by simp, by simp, ?_⟩
    intro _ n
    have := hinv.2.2.1
    simp only [List.take_nil, List.countP_nil]
    omega
  | cons d ds ih =>
    intro h hinv
    obtain ⟨h1, e, hstep, hinv1, _, hdec, hdec0, hslot, _, _, _, _, hrc, _⟩ :=
      handleEdge_step h hinv d
    obtain ⟨h2, es, hrun, hinv2, hlen, hslots, hdg, hcount⟩ := ih h1 hinv1
    refine ⟨h2, e :: es, by simp only [runEdges, hstep, hrun], hinv2, by simp [hlen], ?_, ?_, ?_⟩
    · intro x hx
      rcases List.mem_cons.1 hx with rfl | hx
      · exact hslot
      · exact hslots x hx
    · intro x hx
      rcases List.mem_cons.1 hx with rfl | hx
      · exact fun hd => (hdec.1 hd).1
      · exact hdg x hx
    · intro hno n
      have hno1 : ∀ x ∈ es, x.overflowed = false := fun x hx => hno x (List.mem_cons_of_mem _ hx)
      have hrc1 := hrc (hno e (List.mem_cons_self _ _))
      have hle := hinv.2.2.1
      cases n with
      | zero =>
        simp only [List.take_zero, List.countP_nil]
        omega
      | succ m =>
        have hm := hcount hno1 m
        rw [List.take_succ_cons, List.countP_cons, List.countP_cons, hm]
        cases hg : e.gap <;> cases hdd : e.decoded <;>
          simp [hg, hdd] at hdec hrc1 ⊢ <;> omega

theorem isrStart_inv (g : State) (hlen : g.timings.length = RCSWITCH_MAX_CHANGES) :
    IsrInv (isrStart g) :=
  ⟨hlen, Nat.zero_le _, Nat.zero_le _, fun h => absurd h (Nat.zero_ne_one)⟩

/-! ### Statements about the handler -/

/-- C13 (amended): for every state of the INT0 handler and every edge whose
duration exceeds the separation limit while the handler's test
`diff(duration, timings[0]) < 200` fails, no decode is attempted, the duration
is stored in slot 0, the write index is 1 afterwards, and the repeat counter
keeps the value it had before the edge. -/
theorem gap_mismatch_keeps_repeatCount (h : Isr) (d t0 : Nat) (hd : d > nSeparationLimit)
    (h0 : h.globals.timings[0]? = some t0) (hdiff : ¬ diff d t0 < 200) :
    ∃ h1 e, handleEdge h d = some (h1, e)
      ∧ h1.repeatCount = h.repeatCount
      ∧ h1.changeCount = 1
      ∧ h1.globals = { h.globals with timings := h.globals.timings.set 0 d }
      ∧ e.gap = false ∧ e.decoded = false ∧ e.overflowed = false ∧ e.slot = 0 :=
  ⟨_, _, handleEdge_mismatch h d t0 hd h0 hdiff, rfl, rfl, rfl, rfl, rfl, rfl, rfl⟩

/-- Witness for C13: a gap of 5000 microseconds after a gap of 10050. -/
theorem gap_mismatch_keeps_repeatCount_witness :
    ∃ h1 e, handleEdge gapSeen 5000 = some (h1, e)
      ∧ h1.repeatCount = gapSeen.repeatCount
      ∧ h1.changeCount = 1
      ∧ h1.globals = { gapSeen.globals with timings := gapSeen.globals.timings.set 0 5000 }
      ∧ e.gap = false ∧ e.decoded = false ∧ e.overflowed = false ∧ e.slot = 0 :=
  gap_mismatch_keeps_repeatCount gapSeen 5000 10050 (by decide) (by decide) (by decide)

/-- C13 fails as stated: the state `gapSeen` (repeat counter 1, slot 0 holding
10050) is reached from program start by the edges 10000 and 10050; the next
edge of 5000 microseconds exceeds the separation limit and is 5050 away from
slot 0, and the repeat counter is still 1 after the handler returns. -/
theorem repeatCount_not_reset_on_mismatch :
    (runEdges (isrStart powerOn) [10000, 10050]).map (fun r => r.1) = some gapSeen
    ∧ gapSeen.repeatCount = 1
    ∧ gapSeen.globals.timings[0]? = some 10050
    ∧ 5000 > nSeparationLimit
    ∧ ¬ (5000 + 200 > 10050)
    ∧ ¬ (diff 5000 10050 < 200)
    ∧ (handleEdge gapSeen 5000).map (fun r => r.1.repeatCount) = some 1 := by
  decide

/-- In every state the handler can be in between two edges, the protocol
loop is executed on an edge exactly when the edge passes the handler's gap
test (`duration > nSeparationLimit` and `diff(duration, timings[0]) < 200`)
and the repeat counter was 1 before, and the repeat counter is 0 afterwards;
hence, starting with repeat counter 0, on every sequence of edges without
overflow branch the number of decode attempts made up to any point is half
(rounded down) the number of edges that passed the gap test up to that
point. -/
theorem one_decode_per_gap_pair (h : Isr) (hinv : IsrInv h) :
    (∀ d, ∃ h1 e, handleEdge h d = some (h1, e)
        ∧ e.gap = gapTest h d
        ∧ (e.decoded = true ↔ (gapTest h d = true ∧ h.repeatCount = 1))
        ∧ (e.decoded = true → h1.repeatCount = 0))
    ∧ (h.repeatCount = 0 → ∀ edges : List Nat,
        ∃ h2 es, runEdges h edges = some (h2, es) ∧ es.length = edges.length
          ∧ (∀ e ∈ es, e.decoded = true → e.gap = true)
          ∧ ((∀ e ∈ es, e.overflowed = false) →
              ∀ n, (es.take n).countP (fun e => e.decoded)
                = (es.take n).countP (fun e => e.gap) / 2)) := by
  constructor
  · intro d
    obtain ⟨h1, e, hstep, _, hgap, hdec, hdec0, _⟩ := handleEdge_step h hinv d
    exact ⟨h1, e, hstep, hgap, by rw [← hgap]; exact hdec, fun hd => (hdec0 hd).1⟩
  · intro hrc edges
    obtain ⟨h2, es, hrun, _, hlen, _, hdg, hcount⟩ := runEdges_inv edges h hinv
    refine ⟨h2, es, hrun, hlen, hdg, ?_⟩
    intro hno n
    rw [hcount hno n, hrc, Nat.add_zero]

/-- Instance of `one_decode_per_gap_pair`: the handler at program start. -/
theorem one_decode_per_gap_pair_witness :
    (∀ d, ∃ h1 e, handleEdge (isrStart powerOn) d = some (h1, e)
        ∧ e.gap = gapTest (isrStart powerOn) d
        ∧ (e.decoded = true ↔ (gapTest (isrStart powerOn) d = true
            ∧ (isrStart powerOn).repeatCount = 1))
        ∧ (e.decoded = true → h1.repeatCount = 0))
    ∧ ((isrStart powerOn).repeatCount = 0 → ∀ edges : List Nat,
        ∃ h2 es, runEdges (isrStart powerOn) edges = some (h2, es) ∧ es.length = edges.length
          ∧ (∀ e ∈ es, e.decoded = true → e.gap = true)
          ∧ ((∀ e ∈ es, e.overflowed = false) →
              ∀ n, (es.take n).countP (fun e => e.decoded)
                = (es.take n).countP (fun e => e.gap) / 2)) :=
  one_decode_per_gap_pair (isrStart powerOn) (isrStart_inv powerOn rfl)

/-- The consumed pairs, one pair at a time. -/
theorem consumedPairs_succ (timings : List Nat) (i n : Nat) :
    consumedPairs timings i (n + 1)
      = (timings.getD i 0, timings.getD (i + 1) 0) :: consumedPairs timings (i + 2) n := by
  simp only [consumedPairs, List.range_succ_eq_map, List.map_cons, List.map_map,
    Nat.mul_zero, Nat.add_zero]
  refine congrArg₂ _ rfl ?_
  apply List.map_congr_left
  intro k _
  simp only [Function.comp, Nat.succ_eq_add_one]
  rw [show i + 2 * (k + 1) = i + 2 + 2 * k from by ring]

/-- The loop of `receiveProtocol` on a buffer of 67 slots: it ends normally
exactly when every consumed pair passes the comparison with the zero or the
one description, and then it has pushed one bit per pair, 0 for a pair
passing the comparison with the zero description and 1 otherwise. -/
theorem receiveLoop_pairs (timings : List Nat) (pro : Protocol) (delay tol bound : Nat)
    (hlen : timings.length = RCSWITCH_MAX_CHANGES) :
    ∀ (n i code : Nat), i + 2 * n ≤ RCSWITCH_MAX_CHANGES → bound ≤ i + 2 * n →
      i + 2 * n < bound + 2 →
      receiveLoop timings pro delay tol bound i code =
        if ∀ pr ∈ consumedPairs timings i n,
            pairMatches delay tol pro.zero pr.1 pr.2 ∨ pairMatches delay tol pro.one pr.1 pr.2
        then Scan.decoded (pushBits code ((consumedPairs timings i n).map
          (fun pr => !decide (pairMatches delay tol pro.zero pr.1 pr.2))))
        else Scan.failed := by
  intro n
  induction n with
  | zero =>
    intro i code _ hb _
    rw [receiveLoop, if_neg (by omega)]
    simp [consumedPairs, pushBits]
  | succ n ih =>
    intro i code hmax hlo hhi
    have hmax' : i + 2 * n + 2 ≤ 67 := by
      simp only [RCSWITCH_MAX_CHANGES] at hmax; omega
    have hi : i + 1 < RCSWITCH_MAX_CHANGES := by
      simp only [RCSWITCH_MAX_CHANGES]; omega
    have hmod : (i + 2) % 65536 = i + 2 := by omega
    have r0 : timings[i]? = some (timings.getD i 0) := by
      rw [List.getD_eq_getElem?_getD, List.getElem?_eq_getElem (by rw [hlen]; omega)]
      rfl
    have r1 : timings[i + 1]? = some (timings.getD (i + 1) 0) := by
      rw [List.getD_eq_getElem?_getD, List.getElem?_eq_getElem (by rw [hlen]; omega)]
      rfl
    have hrec := fun code1 => ih (i + 2) code1 (by simp only [RCSWITCH_MAX_CHANGES]; omega)
      (by omega) (by omega)
    rw [receiveLoop, if_pos (by omega), dif_pos hi, r0, r1, consumedPairs_succ]
    simp only [hmod, List.forall_mem_cons, List.map_cons]
    by_cases hz : pairMatches delay tol pro.zero (timings.getD i 0) (timings.getD (i + 1) 0)
    · have hz' := hz
      unfold pairMatches at hz'
      rw [if_pos hz', hrec]
      simp only [hz, true_or, true_and, decide_True, Bool.not_true]
      split
      · simp [pushBits]
      · rfl
    · have hz' := hz
      unfold pairMatches at hz'
      rw [if_neg hz']
      by_cases ho : pairMatches delay tol pro.one (timings.getD i 0) (timings.getD (i + 1) 0)
      · have ho' := ho
        unfold pairMatches at ho'
        rw [if_pos ho', hrec]
        simp only [hz, ho, or_true, true_and, decide_False, Bool.not_false]
        split
        · simp [pushBits]
        · rfl
      · have ho' := ho
        unfold pairMatches at ho'
        rw [if_neg ho']
        simp only [hz, ho, or_self, false_and, if_false]

/-- The helper `diff` is the distance of its arguments whenever the second
one is at most 32767 and the bound tested is not larger than it. -/
theorem diff_lt_iff_of_le (t e tol : Nat) (ht : t < 65536) (he : e ≤ 32767) (htol : tol ≤ e) :
    diff t e < tol ↔ (t < e + tol ∧ e < t + tol) := by
  unfold diff
  simp only
  split <;> omega

/-- With a tolerance fraction of at most 100 the tolerance is at most the unit
estimate. -/
theorem toleranceOf_le (T delay : Nat) (hT : T ≤ 100) : toleranceOf T delay ≤ delay := by
  unfold toleranceOf
  calc delay * T % 65536 / 100 ≤ delay * T / 100 := Nat.div_le_div_right (Nat.mod_le _ _)
    _ ≤ delay * 100 / 100 := Nat.div_le_div_right (Nat.mul_le_mul_left _ hT)
    _ = delay := Nat.mul_div_cancel _ (by decide)

/-- With a tolerance fraction of at most 100, 16-bit durations and expected
durations up to 32767, the comparisons of `receiveProtocol` with a pulse
description say that both durations lie strictly within the tolerance of
`unit * high` and `unit * low`. -/
theorem pairMatches_iff (delay T : Nat) (hl : HighLow) (t0 t1 : Nat) (hT : T ≤ 100)
    (h0 : t0 < 65536) (h1 : t1 < 65536) (hhi : delay * hl.high ≤ 32767)
    (hlo : delay * hl.low ≤ 32767) (hh : 1 ≤ hl.high) (hlw : 1 ≤ hl.low) :
    pairMatches delay (toleranceOf T delay) hl t0 t1
      ↔ matchesPair delay (toleranceOf T delay) hl (t0, t1) := by
  have htol := toleranceOf_le T delay hT
  have e1 : delay ≤ delay * hl.high := Nat.le_mul_of_pos_right _ hh
  have e2 : delay ≤ delay * hl.low := Nat.le_mul_of_pos_right _ hlw
  unfold pairMatches matchesPair withinTolerance
  rw [Nat.mod_eq_of_lt (by omega), Nat.mod_eq_of_lt (by omega),
    diff_lt_iff_of_le _ _ _ h0 hhi (by omega), diff_lt_iff_of_le _ _ _ h1 hlo (by omega)]

/-- For every table entry and every 16-bit sync duration the expected data
durations `unit * factor` are at most 32767, and every factor is positive. -/
theorem proto_expected_bound :
    ∀ pro ∈ proto, ∀ sync : Nat, sync < 65536 →
      ∀ f ∈ dataFactors pro, unitEstimate pro sync * f ≤ 32767 ∧ 1 ≤ f := by
  intro pro hmem
  simp only [proto, List.mem_cons, List.mem_singleton, List.not_mem_nil, or_false] at hmem
  rcases hmem with rfl | rfl | rfl | rfl | rfl | rfl <;> intro sync hs f hf <;>
    simp only [dataFactors, List.mem_cons, List.mem_singleton, List.not_mem_nil, or_false]
      at hf <;>
    simp only [unitEstimate] <;> norm_num <;>
    rcases hf with rfl | rfl | rfl | rfl <;> omega

/-- The 16-bit accumulator holds the pushed bits modulo `2^16`. -/
theorem pushBits_mod : ∀ (bits : List Bool) (code : Nat), code < 65536 →
    pushBits code bits = (code * 2 ^ bits.length + bitsValue bits) % 65536 := by
  intro bits
  induction bits with
  | nil =>
    intro code hc
    simp only [pushBits, List.foldl_nil, List.length_nil, pow_zero, Nat.mul_one, bitsValue,
      Nat.add_zero]
    exact (Nat.mod_eq_of_lt hc).symm
  | cons b bs ih =>
    intro code hc
    have hb : b.toNat < 2 ^ 1 := by cases b <;> simp
    have hfold : pushBits code (b :: bs) = pushBits (((code <<< 1) % 65536) ||| b.toNat) bs := by
      simp [pushBits]
    have hs : (code <<< 1) % 65536 = (code % 32768) <<< 1 := by
      rw [Nat.shiftLeft_eq, Nat.shiftLeft_eq, pow_one]
      omega
    have hstep : ((code <<< 1) % 65536) ||| b.toNat = (code % 32768) * 2 + b.toNat := by
      rw [hs, shiftLeft_or_low _ _ 1 hb, pow_one]
    have hm : ((code % 32768) * 2 + b.toNat) % 65536 = (code * 2 + b.toNat) % 65536 := by
      omega
    have hmod : (((code % 32768) * 2 + b.toNat) * 2 ^ bs.length + bitsValue bs) % 65536
        = ((code * 2 + b.toNat) * 2 ^ bs.length + bitsValue bs) % 65536 :=
      Nat.ModEq.add_right _ (Nat.ModEq.mul_right _ hm)
    have hb1 : b.toNat ≤ 1 := by cases b <;> simp
    rw [hfold, hstep, ih _ (by omega), hmod, bitsValue, List.length_cons, pow_succ]
    congr 1
    ring

/-- The function `receiveProtocol` on a buffer of 67 slots for `changeCount`
in 8..67, in terms of the pairs it consumes and of its own comparisons. -/
theorem receiveProtocol_pairs (s : State) (p c : Nat) (hp : 1 ≤ p ∧ p ≤ 6)
    (hc : 8 ≤ c ∧ c ≤ 67) (hlen : s.timings.length = RCSWITCH_MAX_CHANGES) :
    receiveProtocol s p c =
      if ∀ pr ∈ consumedPairs s.timings (firstData (protoAt (p - 1)))
            (pairCount (protoAt (p - 1)) c),
          pairMatches (unitEstimate (protoAt (p - 1)) (s.timings.getD 0 0))
              (toleranceOf s.nReceiveTolerance
                (unitEstimate (protoAt (p - 1)) (s.timings.getD 0 0)))
              (protoAt (p - 1)).zero pr.1 pr.2
          ∨ pairMatches (unitEstimate (protoAt (p - 1)) (s.timings.getD 0 0))
              (toleranceOf s.nReceiveTolerance
                (unitEstimate (protoAt (p - 1)) (s.timings.getD 0 0)))
              (protoAt (p - 1)).one pr.1 pr.2
      then some (true,
        { s with
          nReceivedValue := ((pushBits 0 ((consumedPairs s.timings (firstData (protoAt (p - 1)))
              (pairCount (protoAt (p - 1)) c)).map
            (fun pr => !decide (pairMatches (unitEstimate (protoAt (p - 1)) (s.timings.getD 0 0))
              (toleranceOf s.nReceiveTolerance
                (unitEstimate (protoAt (p - 1)) (s.timings.getD 0 0)))
              (protoAt (p - 1)).zero pr.1 pr.2))) : Nat) : Int)
          nReceivedBitlength := (c - 1) / 2
          nReceivedDelay := unitEstimate (protoAt (p - 1)) (s.timings.getD 0 0)
          nReceivedProtocol := p })
      else some (false, s) := by
  obtain ⟨hlook, _⟩ := proto_lookup p hp
  have h0 : s.timings[0]? = some (s.timings.getD 0 0) := by
    rw [List.getD_eq_getElem?_getD, List.getElem?_eq_getElem (by rw [hlen]; decide)]
    rfl
  have hbound : (65535 + c) % 65536 = c - 1 := by omega
  have hfirst : firstData (protoAt (p - 1)) = 1 ∨ firstData (protoAt (p - 1)) = 2 := by
    unfold firstData; split <;> simp
  have hloop := receiveLoop_pairs s.timings (protoAt (p - 1))
    (unitEstimate (protoAt (p - 1)) (s.timings.getD 0 0))
    (toleranceOf s.nReceiveTolerance (unitEstimate (protoAt (p - 1)) (s.timings.getD 0 0)))
    (c - 1) hlen (pairCount (protoAt (p - 1)) c) (firstData (protoAt (p - 1))) 0
    (by simp only [pairCount, RCSWITCH_MAX_CHANGES]; omega)
    (by simp only [pairCount]; omega) (by simp only [pairCount]; omega)
  rw [receiveProtocol_uses_tolerance s p c _ _ hlook h0, hbound]
  have hf : (if (protoAt (p - 1)).invertedSignal = true then 2 else 1)
      = firstData (protoAt (p - 1)) := rfl
  rw [hf, hloop]
  by_cases hA : ∀ pr ∈ consumedPairs s.timings (firstData (protoAt (p - 1)))
            (pairCount (protoAt (p - 1)) c),
          pairMatches (unitEstimate (protoAt (p - 1)) (s.timings.getD 0 0))
              (toleranceOf s.nReceiveTolerance
                (unitEstimate (protoAt (p - 1)) (s.timings.getD 0 0)))
              (protoAt (p - 1)).zero pr.1 pr.2
          ∨ pairMatches (unitEstimate (protoAt (p - 1)) (s.timings.getD 0 0))
              (toleranceOf s.nReceiveTolerance
                (unitEstimate (protoAt (p - 1)) (s.timings.getD 0 0)))
              (protoAt (p - 1)).one pr.1 pr.2
  · rw [if_pos hA, if_pos hA]
    simp only [if_pos (show c > 7 by omega)]
  · rw [if_neg hA, if_neg hA]

/-- A slot read from a buffer of 16-bit durations, or the default 0, is below
`2^16`. -/
theorem getD_lt_of_forall (timings : List Nat) (h16 : ∀ t ∈ timings, t < 65536) (i : Nat) :
    timings.getD i 0 < 65536 := by
  rw [List.getD_eq_getElem?_getD]
  cases h : timings[i]? with
  | none => simp
  | some t =>
    obtain ⟨hi, rfl⟩ := List.getElem?_eq_some.mp h
    exact h16 _ (List.getElem_mem _)

/-- Both durations of a consumed pair are below `2^16`. -/
theorem consumedPairs_lt (timings : List Nat) (h16 : ∀ t ∈ timings, t < 65536) (first n : Nat) :
    ∀ pr ∈ consumedPairs timings first n, pr.1 < 65536 ∧ pr.2 < 65536 := by
  intro pr hpr
  simp only [consumedPairs, List.mem_map, List.mem_range] at hpr
  obtain ⟨k, _, rfl⟩ := hpr
  exact ⟨getD_lt_of_forall timings h16 _, getD_lt_of_forall timings h16 _⟩

/-- On the pairs read from a buffer of 16-bit durations, with a table entry,
the comparisons of `receiveProtocol` agree with `matchesPair`. -/
theorem pairMatches_iff_of_proto (pro : Protocol) (hmem : pro ∈ proto) (sync T : Nat)
    (hs : sync < 65536) (hT : T ≤ 100) (pr : Nat × Nat) (h1 : pr.1 < 65536)
    (h2 : pr.2 < 65536) :
    (pairMatches (unitEstimate pro sync) (toleranceOf T (unitEstimate pro sync))
        pro.zero pr.1 pr.2
      ↔ matchesPair (unitEstimate pro sync) (toleranceOf T (unitEstimate pro sync))
        pro.zero pr)
    ∧ (pairMatches (unitEstimate pro sync) (toleranceOf T (unitEstimate pro sync))
        pro.one pr.1 pr.2
      ↔ matchesPair (unitEstimate pro sync) (toleranceOf T (unitEstimate pro sync))
        pro.one pr) := by
  have hb := proto_expected_bound pro hmem sync hs
  have hzh := hb pro.zero.high (by simp [dataFactors])
  have hzl := hb pro.zero.low (by simp [dataFactors])
  have hoh := hb pro.one.high (by simp [dataFactors])
  have hol := hb pro.one.low (by simp [dataFactors])
  exact ⟨pairMatches_iff _ T pro.zero pr.1 pr.2 hT h1 h2 hzh.1 hzl.1 hzh.2 hzl.2,
    pairMatches_iff _ T pro.one pr.1 pr.2 hT h1 h2 hoh.1 hol.1 hoh.2 hol.2⟩

/-- For a protocol index in 1..6, a buffer of 67 16-bit slots, a tolerance
fraction of at most 100 and `changeCount` in 8..67,
`receiveProtocol` returns true exactly when every consumed pair matches the
zero or the one description; it then publishes the low 16 bits of the code
whose bits, most significant first, are 0 for a pair matching the zero
description and 1 for any other pair, the bit length `(c - 1) / 2`, the unit
estimate and the protocol index; when it returns false the state is
unchanged. -/
theorem receiveProtocol_reference (s : State) (p c : Nat) (hp : 1 ≤ p ∧ p ≤ 6)
    (hc : 8 ≤ c ∧ c ≤ 67) (hlen : s.timings.length = RCSWITCH_MAX_CHANGES)
    (h16 : ∀ t ∈ s.timings, t < 65536) (htol : s.nReceiveTolerance ≤ 100) :
    receiveProtocol s p c =
      if ∀ pr ∈ consumedPairs s.timings (firstData (protoAt (p - 1)))
            (pairCount (protoAt (p - 1)) c),
          matchesPair (unitEstimate (protoAt (p - 1)) (s.timings.getD 0 0))
              (toleranceOf s.nReceiveTolerance
                (unitEstimate (protoAt (p - 1)) (s.timings.getD 0 0)))
              (protoAt (p - 1)).zero pr
          ∨ matchesPair (unitEstimate (protoAt (p - 1)) (s.timings.getD 0 0))
              (toleranceOf s.nReceiveTolerance
                (unitEstimate (protoAt (p - 1)) (s.timings.getD 0 0)))
              (protoAt (p - 1)).one pr
      then some (true,
        { s with
          nReceivedValue := ((bitsValue (referenceBits
              (unitEstimate (protoAt (p - 1)) (s.timings.getD 0 0))
              (toleranceOf s.nReceiveTolerance
                (unitEstimate (protoAt (p - 1)) (s.timings.getD 0 0)))
              (protoAt (p - 1))
              (consumedPairs s.timings (firstData (protoAt (p - 1)))
                (pairCount (protoAt (p - 1)) c))) % 65536 : Nat) : Int)
          nReceivedBitlength := (c - 1) / 2
          nReceivedDelay := unitEstimate (protoAt (p - 1)) (s.timings.getD 0 0)
          nReceivedProtocol := p })
      else some (false, s) := by
  obtain ⟨_, hmem⟩ := proto_lookup p hp
  have hs := getD_lt_of_forall s.timings h16 0
  have hlt := consumedPairs_lt s.timings h16 (firstData (protoAt (p - 1)))
    (pairCount (protoAt (p - 1)) c)
  have hiff := fun (pr : Nat × Nat) (hpr : pr ∈ consumedPairs s.timings
      (firstData (protoAt (p - 1))) (pairCount (protoAt (p - 1)) c)) =>
    pairMatches_iff_of_proto (protoAt (p - 1)) hmem (s.timings.getD 0 0) s.nReceiveTolerance
      hs htol pr (hlt pr hpr).1 (hlt pr hpr).2
  have hbits : (consumedPairs s.timings (firstData (protoAt (p - 1)))
        (pairCount (protoAt (p - 1)) c)).map
      (fun pr => !decide (pairMatches (unitEstimate (protoAt (p - 1)) (s.timings.getD 0 0))
        (toleranceOf s.nReceiveTolerance
          (unitEstimate (protoAt (p - 1)) (s.timings.getD 0 0)))
        (protoAt (p - 1)).zero pr.1 pr.2))
      = referenceBits (unitEstimate (protoAt (p - 1)) (s.timings.getD 0 0))
        (toleranceOf s.nReceiveTolerance
          (unitEstimate (protoAt (p - 1)) (s.timings.getD 0 0)))
        (protoAt (p - 1))
        (consumedPairs s.timings (firstData (protoAt (p - 1)))
          (pairCount (protoAt (p - 1)) c)) := by
    unfold referenceBits
    apply List.map_congr_left
    intro pr hpr
    rw [decide_eq_decide.mpr (hiff pr hpr).1]
  have hcond : (∀ pr ∈ consumedPairs s.timings (firstData (protoAt (p - 1)))
            (pairCount (protoAt (p - 1)) c),
          pairMatches (unitEstimate (protoAt (p - 1)) (s.timings.getD 0 0))
              (toleranceOf s.nReceiveTolerance
                (unitEstimate (protoAt (p - 1)) (s.timings.getD 0 0)))
              (protoAt (p - 1)).zero pr.1 pr.2
          ∨ pairMatches (unitEstimate (protoAt (p - 1)) (s.timings.getD 0 0))
              (toleranceOf s.nReceiveTolerance
                (unitEstimate (protoAt (p - 1)) (s.timings.getD 0 0)))
              (protoAt (p - 1)).one pr.1 pr.2)
      ↔ (∀ pr ∈ consumedPairs s.timings (firstData (protoAt (p - 1)))
            (pairCount (protoAt (p - 1)) c),
          matchesPair (unitEstimate (protoAt (p - 1)) (s.timings.getD 0 0))
              (toleranceOf s.nReceiveTolerance
                (unitEstimate (protoAt (p - 1)) (s.timings.getD 0 0)))
              (protoAt (p - 1)).zero pr
          ∨ matchesPair (unitEstimate (protoAt (p - 1)) (s.timings.getD 0 0))
              (toleranceOf s.nReceiveTolerance
                (unitEstimate (protoAt (p - 1)) (s.timings.getD 0 0)))
              (protoAt (p - 1)).one pr) :=
    forall₂_congr (fun pr hpr => or_congr (hiff pr hpr).1 (hiff pr hpr).2)
  rw [receiveProtocol_pairs s p c hp hc hlen, hbits, pushBits_mod _ 0 (by decide),
    Nat.zero_mul, Nat.zero_add]
  exact if_congr hcond rfl rfl

/-- Instance of `receiveProtocol_reference`: protocol 1 on the capture
`zeroPairsBuffer` with `changeCount = 8`. -/
theorem receiveProtocol_reference_witness :
    receiveProtocol (receiverWith zeroPairsBuffer) 1 8 =
      if ∀ pr ∈ consumedPairs (receiverWith zeroPairsBuffer).timings (firstData (protoAt (1 - 1)))
            (pairCount (protoAt (1 - 1)) 8),
          matchesPair (unitEstimate (protoAt (1 - 1)) ((receiverWith zeroPairsBuffer).timings.getD 0 0))
              (toleranceOf (receiverWith zeroPairsBuffer).nReceiveTolerance
                (unitEstimate (protoAt (1 - 1)) ((receiverWith zeroPairsBuffer).timings.getD 0 0)))
              (protoAt (1 - 1)).zero pr
          ∨ matchesPair (unitEstimate (protoAt (1 - 1)) ((receiverWith zeroPairsBuffer).timings.getD 0 0))
              (toleranceOf (receiverWith zeroPairsBuffer).nReceiveTolerance
                (unitEstimate (protoAt (1 - 1)) ((receiverWith zeroPairsBuffer).timings.getD 0 0)))
              (protoAt (1 - 1)).one pr
      then some (true,
        { receiverWith zeroPairsBuffer with
          nReceivedValue := ((bitsValue (referenceBits
              (unitEstimate (protoAt (1 - 1)) ((receiverWith zeroPairsBuffer).timings.getD 0 0))
              (toleranceOf (receiverWith zeroPairsBuffer).nReceiveTolerance
                (unitEstimate (protoAt (1 - 1)) ((receiverWith zeroPairsBuffer).timings.getD 0 0)))
              (protoAt (1 - 1))
              (consumedPairs (receiverWith zeroPairsBuffer).timings (firstData (protoAt (1 - 1)))
                (pairCount (protoAt (1 - 1)) 8))) % 65536 : Nat) : Int)
          nReceivedBitlength := (8 - 1) / 2
          nReceivedDelay := unitEstimate (protoAt (1 - 1)) ((receiverWith zeroPairsBuffer).timings.getD 0 0)
          nReceivedProtocol := 1 })
      else some (false, receiverWith zeroPairsBuffer) :=
  receiveProtocol_reference (receiverWith zeroPairsBuffer) 1 8 (by decide) (by decide)
    (by decide) (by decide) (by decide)

/-- C12: under protocol 1 with `changeCount = 36` the capture
`seventeenPairsBuffer` has 17 consumed pairs, the first matching the one
description and the other sixteen the zero description, so the code read
most significant bit first is 65536; `receiveProtocol` returns true and
publishes the bit length 17 with the value 0: the 16-bit variable `code` has
lost the first bit. -/
theorem receiveProtocol_drops_seventeenth_bit :
    seventeenPairsBuffer.length = RCSWITCH_MAX_CHANGES
    ∧ pairCount (protoAt 0) 36 = 17
    ∧ bitsValue (referenceBits (unitEstimate (protoAt 0) 10850)
        (toleranceOf 60 (unitEstimate (protoAt 0) 10850)) (protoAt 0)
        (consumedPairs seventeenPairsBuffer (firstData (protoAt 0)) (pairCount (protoAt 0) 36)))
        = 65536
    ∧ (∀ pr ∈ consumedPairs seventeenPairsBuffer (firstData (protoAt 0))
          (pairCount (protoAt 0) 36),
        matchesPair (unitEstimate (protoAt 0) 10850)
            (toleranceOf 60 (unitEstimate (protoAt 0) 10850)) (protoAt 0).zero pr
        ∨ matchesPair (unitEstimate (protoAt 0) 10850)
            (toleranceOf 60 (unitEstimate (protoAt 0) 10850)) (protoAt 0).one pr)
    ∧ receiveProtocol (receiverWith seventeenPairsBuffer) 1 36
        = some (true, { receiverWith seventeenPairsBuffer with
            nReceivedValue := 0
            nReceivedBitlength := 17
            nReceivedDelay := 350
            nReceivedProtocol := 1 }) := by
  rw [receiveProtocol_eq_steps]
  decide


/-! ### The reported bit length -/

/-- For a protocol that is not inverted, and for an even `changeCount` in
general, the number of pairs the loop consumes is `(changeCount - 1) / 2`. -/
theorem pairCount_eq_bitlength (pro : Protocol) (c : Nat) (hc : 2 ≤ c)
    (h : pro.invertedSignal = false ∨ c % 2 = 0) :
    pairCount pro c = (c - 1) / 2 := by
  unfold pairCount firstData
  rcases h with h | h
  · rw [h]
    simp
  · split <;> omega

/-- C17: under the inverted protocol 6 with `changeCount = 9` the loop of
`receiveProtocol` consumes the three pairs of slots 2 to 7 of
`oddCountBuffer` (a fourth pair, slots 8 and 9 holding 0, would match neither
description), returns true and publishes the three bits 001 as value 1, with
the bit length `(9 - 1) / 2 = 4`. -/
theorem bitlength_exceeds_consumed_pairs :
    pairCount (protoAt 5) 9 = 3
    ∧ consumedPairs oddCountBuffer (firstData (protoAt 5)) (pairCount (protoAt 5) 9)
        = [(450, 900), (450, 900), (900, 450)]
    ∧ pairBit (protoAt 5) (unitEstimate (protoAt 5) 10350)
        (toleranceOf 60 (unitEstimate (protoAt 5) 10350)) 0 0 = none
    ∧ receiveProtocol (receiverWith oddCountBuffer) 6 9
        = some (true, { receiverWith oddCountBuffer with
            nReceivedValue := 1
            nReceivedBitlength := 4
            nReceivedDelay := 450
            nReceivedProtocol := 6 }) := by
  rw [receiveProtocol_eq_steps]
  decide

/-! ### Protocol identification -/

/-- One pair of slots that matches neither description makes
`receiveProtocol` return false. -/
theorem receiveProtocol_rejects (s : State) (q c k sync t0 t1 : Nat) (hq : 1 ≤ q ∧ q ≤ 6)
    (hc : 8 ≤ c ∧ c ≤ 67) (hlen : s.timings.length = RCSWITCH_MAX_CHANGES)
    (hk : k < pairCount (protoAt (q - 1)) c)
    (hs : s.timings[0]? = some sync)
    (h0 : s.timings[firstData (protoAt (q - 1)) + 2 * k]? = some t0)
    (h1 : s.timings[firstData (protoAt (q - 1)) + 2 * k + 1]? = some t1)
    (hbit : pairBit (protoAt (q - 1)) (unitEstimate (protoAt (q - 1)) sync)
        (toleranceOf s.nReceiveTolerance (unitEstimate (protoAt (q - 1)) sync)) t0 t1 = none) :
    receiveProtocol s q c = some (false, s) := by
  have hsync : s.timings.getD 0 0 = sync := by
    rw [List.getD_eq_getElem?_getD, hs]; rfl
  have hmem : (t0, t1) ∈ consumedPairs s.timings (firstData (protoAt (q - 1)))
      (pairCount (protoAt (q - 1)) c) := by
    simp only [consumedPairs, List.mem_map, List.mem_range]
    refine ⟨k, hk, ?_⟩
    rw [List.getD_eq_getElem?_getD, List.getD_eq_getElem?_getD, h0, h1]
    rfl
  rw [receiveProtocol_pairs s q c hq hc hlen, if_neg]
  intro hall
  have h := hall (t0, t1) hmem
  rw [hsync] at h
  unfold pairBit at hbit
  split at hbit
  · cases hbit
  · split at hbit
    · cases hbit
    · rcases h with h | h
      · contradiction
      · contradiction

/-- If the `L` pairs of slots from the first data slot on decode to the bits
of `bits`, `receiveProtocol(q, 2L+2)` returns true and publishes these bits. -/
theorem receiveProtocol_accepts (s : State) (q L sync : Nat) (bits : List Bool)
    (hq : 1 ≤ q ∧ q ≤ 6) (hL : 3 ≤ L ∧ L ≤ 16) (hbits : bits.length = L)
    (hs : s.timings[0]? = some sync)
    (hread : ∀ k b, bits[k]? = some b →
      ∃ t0 t1, s.timings[firstData (protoAt (q - 1)) + 2 * k]? = some t0
        ∧ s.timings[firstData (protoAt (q - 1)) + 2 * k + 1]? = some t1
        ∧ pairBit (protoAt (q - 1)) (unitEstimate (protoAt (q - 1)) sync)
            (toleranceOf s.nReceiveTolerance (unitEstimate (protoAt (q - 1)) sync))
            t0 t1 = some b) :
    receiveProtocol s q (2 * L + 2) = some (true,
      { s with
        nReceivedValue := ((pushBits 0 bits : Nat) : Int)
        nReceivedBitlength := L
        nReceivedDelay := unitEstimate (protoAt (q - 1)) sync
        nReceivedProtocol := q }) := by
  obtain ⟨hlook, _⟩ := proto_lookup q hq
  have hfirst : firstData (protoAt (q - 1)) = 1 ∨ firstData (protoAt (q - 1)) = 2 := by
    unfold firstData; split <;> simp
  have hbound : (65535 + (2 * L + 2)) % 65536 = 2 * L + 1 := by omega
  have hloop := receiveLoop_decoded s.timings (protoAt (q - 1))
    (unitEstimate (protoAt (q - 1)) sync)
    (toleranceOf s.nReceiveTolerance (unitEstimate (protoAt (q - 1)) sync))
    (2 * L + 1) bits (firstData (protoAt (q - 1))) 0
    (by rw [hbits]; simp only [RCSWITCH_MAX_CHANGES]; omega)
    (by rw [hbits]; omega) (by rw [hbits]; omega) hread
  have h := receiveProtocol_decoded s q (2 * L + 2) (protoAt (q - 1)) sync
    (pushBits 0 bits) hlook hs (by rw [hbound]; exact hloop) (by omega)
  rw [h, hbound]
  have : (2 * L + 1) / 2 = L := by omega
  rw [this]
  rfl

/-- A rejected index hands the protocol loop to the next index. -/
theorem tryProtocols_reject (c n i : Nat) (s : State)
    (h : receiveProtocol s i c = some (false, s)) :
    tryProtocols c (n + 1) i s = tryProtocols c n (i + 1) s := by
  simp only [tryProtocols, h]

/-- An accepted index ends the protocol loop. -/
theorem tryProtocols_accept (c n i : Nat) (s s1 : State)
    (h : receiveProtocol s i c = some (true, s1)) :
    tryProtocols c (n + 1) i s = some s1 := by
  simp only [tryProtocols, h]

/-- How the table entries judge the exact pairs of one another, with the
tolerance 60: protocol 1 rejects both data pairs of protocols 2 to 5,
protocols 2 and 3 reject both data pairs of protocol 4, protocol 2 rejects
the one pair of protocol 3 and decodes both pairs of protocol 5, protocols 2
to 5 reject the short sync of protocol 6 followed by either first data
duration, and protocol 1 rejects the pair of two short durations of
protocol 6. -/
theorem crossBit_table :
    (∀ qP ∈ [(0, 1), (0, 2), (0, 3), (0, 4), (1, 3), (2, 3)], ∀ b : Bool,
      crossBit (protoAt qP.1) (protoAt qP.2)
        (((protoAt qP.2).pulseLength * (bitPattern (protoAt qP.2) b).high) % 65536)
        (((protoAt qP.2).pulseLength * (bitPattern (protoAt qP.2) b).low) % 65536) = none)
    ∧ crossBit (protoAt 1) (protoAt 2)
        (((protoAt 2).pulseLength * (bitPattern (protoAt 2) true).high) % 65536)
        (((protoAt 2).pulseLength * (bitPattern (protoAt 2) true).low) % 65536) = none
    ∧ (∀ b : Bool, crossBit (protoAt 1) (protoAt 4)
        (((protoAt 4).pulseLength * (bitPattern (protoAt 4) b).high) % 65536)
        (((protoAt 4).pulseLength * (bitPattern (protoAt 4) b).low) % 65536) = some b)
    ∧ (∀ q ∈ [1, 2, 3, 4], ∀ b : Bool, crossBit (protoAt q) (protoAt 5)
        (((protoAt 5).pulseLength * syncMin (protoAt 5)) % 65536)
        (((protoAt 5).pulseLength * (bitPattern (protoAt 5) b).high) % 65536) = none)
    ∧ crossBit (protoAt 0) (protoAt 5)
        (((protoAt 5).pulseLength * syncMin (protoAt 5)) % 65536)
        (((protoAt 5).pulseLength * (bitPattern (protoAt 5) false).high) % 65536) = none
    ∧ crossBit (protoAt 0) (protoAt 5)
        (((protoAt 5).pulseLength * (bitPattern (protoAt 5) true).low) % 65536)
        (((protoAt 5).pulseLength * (bitPattern (protoAt 5) false).high) % 65536) = none := by
  decide

/-- The bit at position `k` of the bit string of a code word. -/
theorem codeBits_getElem? (C L k : Nat) (hk : k < L) :
    (codeBits C L)[k]? = some (C.testBit (L - 1 - k)) := by
  simp [codeBits, List.getElem?_range hk]

/-- A code word other than 0 has a one among its bits. -/
theorem exists_one_bit (C L : Nat) (hC : C < 2 ^ L) (h : C ≠ 0) :
    ∃ k : Nat, (codeBits C L)[k]? = some true := by
  obtain ⟨j, hj⟩ := Nat.ne_zero_implies_bit_true h
  have hjL : j < L := by
    by_contra hn
    have h2 : C < 2 ^ j := lt_of_lt_of_le hC (Nat.pow_le_pow_right (by decide) (by omega))
    rw [Nat.testBit_lt_two_pow h2] at hj
    cases hj
  refine ⟨L - 1 - j, ?_⟩
  rw [codeBits_getElem? C L (L - 1 - j) (by omega),
    show L - 1 - (L - 1 - j) = j from by omega, hj]

/-- A list of bits holding a zero has a first zero: it stands in front or
right after a one. -/
theorem exists_first_false :
    ∀ bits : List Bool, false ∈ bits →
      ∃ k : Nat, bits[k]? = some false ∧ (k = 0 ∨ ∃ j : Nat, k = j + 1 ∧ bits[j]? = some true) := by
  intro bits
  induction bits with
  | nil => intro h; simp at h
  | cons a as ih =>
    intro h
    cases a with
    | false => exact ⟨0, by simp, Or.inl rfl⟩
    | true =>
      have h2 : false ∈ as := by simpa using h
      obtain ⟨k, hk, hfirst⟩ := ih h2
      refine ⟨k + 1, by simpa using hk, Or.inr ?_⟩
      rcases hfirst with rfl | ⟨j, rfl, hj⟩
      · exact ⟨0, rfl, by simp⟩
      · exact ⟨j + 1, rfl, by simpa using hj⟩

/-- A code word of `L` bits other than `2^L - 1` has a zero among its bits. -/
theorem exists_zero_bit (C L : Nat) (hC : C < 2 ^ L) (h : C + 1 ≠ 2 ^ L) :
    false ∈ codeBits C L := by
  have hex : ∃ j, j < L ∧ C.testBit j = false := by
    by_contra hn
    apply h
    have hall : ∀ j, j < L → C.testBit j = true := by
      intro j hj
      cases hb : C.testBit j
      · exact absurd ⟨j, hj, hb⟩ hn
      · rfl
    have heq : C = 2 ^ L - 1 := by
      apply Nat.eq_of_testBit_eq
      intro i
      rw [Nat.testBit_two_pow_sub_one]
      by_cases hi : i < L
      · rw [hall i hi]; simp [hi]
      · have h2 : C < 2 ^ i := lt_of_lt_of_le hC (Nat.pow_le_pow_right (by decide) (by omega))
        rw [Nat.testBit_lt_two_pow h2]; simp [hi]
    have hp : 0 < 2 ^ L := Nat.pow_pos (by decide)
    omega
  obtain ⟨j, hj, hb⟩ := hex
  rw [List.mem_iff_getElem?]
  refine ⟨L - 1 - j, ?_⟩
  rw [codeBits_getElem? C L (L - 1 - j) (by omega),
    show L - 1 - (L - 1 - j) = j from by omega, hb]

/-- On the capture of a frame of protocol `P`, a protocol `q` with the same
first data slot returns false as soon as it rejects the exact pair of one
bit of the frame. -/
theorem capture_rejects_at (s : State) (q P L C k : Nat) (b : Bool) (rest : List Nat)
    (hq : 1 ≤ q ∧ q ≤ 6) (hL : 3 ≤ L ∧ L ≤ 16) (htol : s.nReceiveTolerance = 60)
    (hbuf : s.timings = capture (protoAt (P - 1)) C L ++ rest)
    (hlen : s.timings.length = RCSWITCH_MAX_CHANGES)
    (hqf : firstData (protoAt (q - 1)) = firstData (protoAt (P - 1)))
    (hkb : (codeBits C L)[k]? = some b)
    (htab : crossBit (protoAt (q - 1)) (protoAt (P - 1))
      (((protoAt (P - 1)).pulseLength * (bitPattern (protoAt (P - 1)) b).high) % 65536)
      (((protoAt (P - 1)).pulseLength * (bitPattern (protoAt (P - 1)) b).low) % 65536) = none) :
    receiveProtocol s q (2 * L + 2) = some (false, s) := by
  obtain ⟨r0, rk⟩ := capture_read (protoAt (P - 1)) C L rest
  rw [← hbuf] at r0 rk
  have hkL : k < L := by
    have := (List.getElem?_eq_some.mp hkb).1
    rwa [length_codeBits] at this
  have hfirst : firstData (protoAt (q - 1)) = 1 ∨ firstData (protoAt (q - 1)) = 2 := by
    unfold firstData; split <;> simp
  refine receiveProtocol_rejects s q (2 * L + 2) k _ _ _ hq (by omega) hlen
    (by unfold pairCount; omega) r0 (by rw [hqf]; exact (rk k b hkb).1)
    (by rw [hqf]; exact (rk k b hkb).2) ?_
  rw [htol]
  exact htab

/-- The second slot of the capture of an inverted protocol holds the short
sync duration. -/
theorem capture_read_short (pro : Protocol) (C L : Nat) (rest : List Nat)
    (hinv : pro.invertedSignal = true) :
    (capture pro C L ++ rest)[1]? = some ((pro.pulseLength * syncMin pro) % 65536) := by
  simp [capture, hinv]

/-- On the capture of a frame of an inverted protocol `P`, a protocol `q`
that is not inverted reads the short sync duration and the first data
duration as its first pair, and returns false when it rejects them. -/
theorem capture_inverted_rejects_first (s : State) (q P L C : Nat) (b : Bool)
    (rest : List Nat)
    (hq : 1 ≤ q ∧ q ≤ 6) (hL : 3 ≤ L ∧ L ≤ 16) (htol : s.nReceiveTolerance = 60)
    (hbuf : s.timings = capture (protoAt (P - 1)) C L ++ rest)
    (hlen : s.timings.length = RCSWITCH_MAX_CHANGES)
    (hqf : firstData (protoAt (q - 1)) = 1)
    (hinv : (protoAt (P - 1)).invertedSignal = true)
    (hkb : (codeBits C L)[0]? = some b)
    (htab : crossBit (protoAt (q - 1)) (protoAt (P - 1))
      (((protoAt (P - 1)).pulseLength * syncMin (protoAt (P - 1))) % 65536)
      (((protoAt (P - 1)).pulseLength * (bitPattern (protoAt (P - 1)) b).high) % 65536) = none) :
    receiveProtocol s q (2 * L + 2) = some (false, s) := by
  obtain ⟨r0, rk⟩ := capture_read (protoAt (P - 1)) C L rest
  have r1 := capture_read_short (protoAt (P - 1)) C L rest hinv
  rw [← hbuf] at r0 rk r1
  have hPf : firstData (protoAt (P - 1)) = 2 := by unfold firstData; rw [hinv]; rfl
  have h2 := (rk 0 b hkb).1
  rw [hPf] at h2
  refine receiveProtocol_rejects s q (2 * L + 2) 0 _ _ _ hq (by omega) hlen
    (by unfold pairCount; omega) r0 (by rw [hqf]; exact r1)
    (by rw [hqf]; exact h2) ?_
  rw [htol]
  exact htab

/-- On the capture of a frame of an inverted protocol `P`, a protocol `q`
that is not inverted reads the low duration of one bit and the high duration
of the next bit as one pair, and returns false when it rejects them. -/
theorem capture_inverted_rejects_at (s : State) (q P L C j : Nat) (a b : Bool)
    (rest : List Nat)
    (hq : 1 ≤ q ∧ q ≤ 6) (hL : 3 ≤ L ∧ L ≤ 16) (htol : s.nReceiveTolerance = 60)
    (hbuf : s.timings = capture (protoAt (P - 1)) C L ++ rest)
    (hlen : s.timings.length = RCSWITCH_MAX_CHANGES)
    (hqf : firstData (protoAt (q - 1)) = 1)
    (hinv : (protoAt (P - 1)).invertedSignal = true)
    (hja : (codeBits C L)[j]? = some a)
    (hkb : (codeBits C L)[j + 1]? = some b)
    (htab : crossBit (protoAt (q - 1)) (protoAt (P - 1))
      (((protoAt (P - 1)).pulseLength * (bitPattern (protoAt (P - 1)) a).low) % 65536)
      (((protoAt (P - 1)).pulseLength * (bitPattern (protoAt (P - 1)) b).high) % 65536) = none) :
    receiveProtocol s q (2 * L + 2) = some (false, s) := by
  obtain ⟨r0, rk⟩ := capture_read (protoAt (P - 1)) C L rest
  rw [← hbuf] at r0 rk
  have hPf : firstData (protoAt (P - 1)) = 2 := by unfold firstData; rw [hinv]; rfl
  have hkL : j + 1 < L := by
    have := (List.getElem?_eq_some.mp hkb).1
    rwa [length_codeBits] at this
  have h1 := (rk j a hja).2
  have h2 := (rk (j + 1) b hkb).1
  rw [hPf] at h1 h2
  refine receiveProtocol_rejects s q (2 * L + 2) (j + 1) _ _ _ hq (by omega) hlen
    (by unfold pairCount; omega) r0
    (by rw [hqf, show 1 + 2 * (j + 1) = 2 + 2 * j + 1 from by ring]; exact h1)
    (by rw [hqf, show 1 + 2 * (j + 1) + 1 = 2 + 2 * (j + 1) from by ring]; exact h2) ?_
  rw [htol]
  exact htab

/-- On the capture of a frame of protocol `P`, a protocol `q` with the same
first data slot that decodes the exact pair of either bit to that bit
returns true and publishes the code of the frame with its own unit
estimate. -/
theorem capture_accepts (s : State) (q P L C : Nat) (rest : List Nat)
    (hq : 1 ≤ q ∧ q ≤ 6) (hL : 3 ≤ L ∧ L ≤ 16) (hC : C < 2 ^ L)
    (htol : s.nReceiveTolerance = 60)
    (hbuf : s.timings = capture (protoAt (P - 1)) C L ++ rest)
    (hqf : firstData (protoAt (q - 1)) = firstData (protoAt (P - 1)))
    (htab : ∀ b : Bool, crossBit (protoAt (q - 1)) (protoAt (P - 1))
      (((protoAt (P - 1)).pulseLength * (bitPattern (protoAt (P - 1)) b).high) % 65536)
      (((protoAt (P - 1)).pulseLength * (bitPattern (protoAt (P - 1)) b).low) % 65536)
        = some b) :
    receiveProtocol s q (2 * L + 2) = some (true,
      { s with
        nReceivedValue := (C : Int)
        nReceivedBitlength := L
        nReceivedDelay := unitEstimate (protoAt (q - 1))
          (((protoAt (P - 1)).pulseLength * syncMax (protoAt (P - 1))) % 65536)
        nReceivedProtocol := q }) := by
  obtain ⟨r0, rk⟩ := capture_read (protoAt (P - 1)) C L rest
  rw [← hbuf] at r0 rk
  have h := receiveProtocol_accepts s q L _ (codeBits C L) hq hL (length_codeBits C L) r0
    (fun k b hkb => ⟨_, _, by rw [hqf]; exact (rk k b hkb).1,
      by rw [hqf]; exact (rk k b hkb).2, by rw [htol]; exact htab b⟩)
  rw [h, pushBits_codeBits C L hL.2 hC]

/-- C18 (amended): for every built-in protocol `P`, every `L` in 3..16 and
every code `C < 2^L`, with the tolerance 60 and a buffer of 67 slots starting
with the jitter-free capture of the frame, the protocol loop of the INT0
handler publishes the value `C` and the bit length `L`; it publishes the
protocol `P` and its pulse length, except that a frame of protocol 5 is
published as protocol 2 with delay 700; the codes 0 of protocol 3 and
`2^L - 1` of protocol 6 are excluded. -/
theorem tryProtocols_identifies (s : State) (P L C : Nat) (rest : List Nat)
    (hP : 1 ≤ P ∧ P ≤ 6) (hL : 3 ≤ L ∧ L ≤ 16) (hC : C < 2 ^ L)
    (htol : s.nReceiveTolerance = 60)
    (hbuf : s.timings = capture (protoAt (P - 1)) C L ++ rest)
    (hlen : s.timings.length = RCSWITCH_MAX_CHANGES)
    (h3 : P = 3 → C ≠ 0) (h6 : P = 6 → C + 1 ≠ 2 ^ L) :
    tryProtocols (2 * L + 2) numProto 1 s = some
      { s with
        nReceivedValue := (C : Int)
        nReceivedBitlength := L
        nReceivedDelay := if P = 5 then 700 else (protoAt (P - 1)).pulseLength
        nReceivedProtocol := if P = 5 then 2 else P } := by
  obtain ⟨hP1, hP6⟩ := hP
  have hb0 := codeBits_getElem? C L 0 (by omega)
  obtain ⟨t1, t2, t3, t4, t5, t6⟩ := crossBit_table
  rw [show numProto = 6 from rfl]
  interval_cases P
  · rw [tryProtocols_accept _ 5 1 s _
      (receiveProtocol_capture s 1 L C rest (by decide) hL hC htol hbuf)]
    rfl
  · have r1 := capture_rejects_at s 1 2 L C 0 _ rest (by decide) hL htol hbuf hlen rfl hb0
      (t1 (0, 1) (by simp) _)
    rw [tryProtocols_reject _ 5 1 s r1, tryProtocols_accept _ 4 2 s _
      (receiveProtocol_capture s 2 L C rest (by decide) hL hC htol hbuf)]
    rfl
  · have r1 := capture_rejects_at s 1 3 L C 0 _ rest (by decide) hL htol hbuf hlen rfl hb0
      (t1 (0, 2) (by simp) _)
    obtain ⟨k, hk⟩ := exists_one_bit C L hC (h3 rfl)
    have r2 := capture_rejects_at s 2 3 L C k true rest (by decide) hL htol hbuf hlen rfl hk t2
    rw [tryProtocols_reject _ 5 1 s r1, tryProtocols_reject _ 4 2 s r2,
      tryProtocols_accept _ 3 3 s _
        (receiveProtocol_capture s 3 L C rest (by decide) hL hC htol hbuf)]
    rfl
  · have r1 := capture_rejects_at s 1 4 L C 0 _ rest (by decide) hL htol hbuf hlen rfl hb0
      (t1 (0, 3) (by simp) _)
    have r2 := capture_rejects_at s 2 4 L C 0 _ rest (by decide) hL htol hbuf hlen rfl hb0
      (t1 (1, 3) (by simp) _)
    have r3 := capture_rejects_at s 3 4 L C 0 _ rest (by decide) hL htol hbuf hlen rfl hb0
      (t1 (2, 3) (by simp) _)
    rw [tryProtocols_reject _ 5 1 s r1, tryProtocols_reject _ 4 2 s r2,
      tryProtocols_reject _ 3 3 s r3, tryProtocols_accept _ 2 4 s _
        (receiveProtocol_capture s 4 L C rest (by decide) hL hC htol hbuf)]
    rfl
  · have r1 := capture_rejects_at s 1 5 L C 0 _ rest (by decide) hL htol hbuf hlen rfl hb0
      (t1 (0, 4) (by simp) _)
    rw [tryProtocols_reject _ 5 1 s r1, tryProtocols_accept _ 4 2 s _
      (capture_accepts s 2 5 L C rest (by decide) hL hC htol hbuf rfl t3)]
    rfl
  · obtain ⟨k, hk, hfirst⟩ := exists_first_false _ (exists_zero_bit C L hC (h6 rfl))
    have r1 : receiveProtocol s 1 (2 * L + 2) = some (false, s) := by
      rcases hfirst with rfl | ⟨j, rfl, hj⟩
      · exact capture_inverted_rejects_first s 1 6 L C false rest (by decide) hL htol hbuf
          hlen rfl rfl hk t5
      · exact capture_inverted_rejects_at s 1 6 L C j true false rest (by decide) hL htol
          hbuf hlen rfl rfl hj hk t6
    have r2 := capture_inverted_rejects_first s 2 6 L C _ rest (by decide) hL htol hbuf
      hlen rfl rfl hb0 (t4 1 (by simp) _)
    have r3 := capture_inverted_rejects_first s 3 6 L C _ rest (by decide) hL htol hbuf
      hlen rfl rfl hb0 (t4 2 (by simp) _)
    have r4 := capture_inverted_rejects_first s 4 6 L C _ rest (by decide) hL htol hbuf
      hlen rfl rfl hb0 (t4 3 (by simp) _)
    have r5 := capture_inverted_rejects_first s 5 6 L C _ rest (by decide) hL htol hbuf
      hlen rfl rfl hb0 (t4 4 (by simp) _)
    rw [tryProtocols_reject _ 5 1 s r1, tryProtocols_reject _ 4 2 s r2,
      tryProtocols_reject _ 3 3 s r3, tryProtocols_reject _ 2 4 s r4,
      tryProtocols_reject _ 1 5 s r5, tryProtocols_accept _ 0 6 s _
        (receiveProtocol_capture s 6 L C rest (by decide) hL hC htol hbuf)]
    rfl

/-- Instance of `tryProtocols_identifies`: the code 5 on 3 bits under
protocol 6. -/
theorem tryProtocols_identifies_witness :
    tryProtocols (2 * 3 + 2) numProto 1
        (receiverWith (capture (protoAt (6 - 1)) 5 3 ++ List.replicate 59 0)) = some
      { receiverWith (capture (protoAt (6 - 1)) 5 3 ++ List.replicate 59 0) with
        nReceivedValue := ((5 : Nat) : Int)
        nReceivedBitlength := 3
        nReceivedDelay := if 6 = 5 then 700 else (protoAt (6 - 1)).pulseLength
        nReceivedProtocol := if 6 = 5 then 2 else 6 } :=
  tryProtocols_identifies (receiverWith (capture (protoAt (6 - 1)) 5 3 ++ List.replicate 59 0))
    6 3 5 (List.replicate 59 0) (by decide) (by decide) (by decide) rfl rfl (by decide)
    (by decide) (by decide)

/-- C18 (counterexample): the protocol loop publishes the frame of code 5 on
3 bits of protocol 5 as protocol 2 (value 5, delay 700), the frame of code 0
of protocol 3 as protocol 2 (value 0, delay 710), and the frame of code 7 of
protocol 6 as protocol 1 with the value 0 (delay 333). -/
theorem tryProtocols_misidentifies :
    tryProtocols 8 numProto 1 (receiverWith (capture (protoAt 4) 5 3 ++ List.replicate 59 0))
      = some { receiverWith (capture (protoAt 4) 5 3 ++ List.replicate 59 0) with
          nReceivedValue := 5
          nReceivedBitlength := 3
          nReceivedDelay := 700
          nReceivedProtocol := 2 }
    ∧ tryProtocols 8 numProto 1
        (receiverWith (capture (protoAt 2) 0 3 ++ List.replicate 59 0))
      = some { receiverWith (capture (protoAt 2) 0 3 ++ List.replicate 59 0) with
          nReceivedValue := 0
          nReceivedBitlength := 3
          nReceivedDelay := 710
          nReceivedProtocol := 2 }
    ∧ tryProtocols 8 numProto 1
        (receiverWith (capture (protoAt 5) 7 3 ++ List.replicate 59 0))
      = some { receiverWith (capture (protoAt 5) 7 3 ++ List.replicate 59 0) with
          nReceivedValue := 0
          nReceivedBitlength := 3
          nReceivedDelay := 333
          nReceivedProtocol := 1 } := by
  have r5 : receiveProtocol (receiverWith (capture (protoAt 4) 5 3 ++ List.replicate 59 0)) 1 8
      = some (false, receiverWith (capture (protoAt 4) 5 3 ++ List.replicate 59 0)) := by
    rw [receiveProtocol_eq_steps]; decide
  have a5 : receiveProtocol (receiverWith (capture (protoAt 4) 5 3 ++ List.replicate 59 0)) 2 8
      = some (true, { receiverWith (capture (protoAt 4) 5 3 ++ List.replicate 59 0) with
          nReceivedValue := 5
          nReceivedBitlength := 3
          nReceivedDelay := 700
          nReceivedProtocol := 2 }) := by
    rw [receiveProtocol_eq_steps]; decide
  have r3 : receiveProtocol (receiverWith (capture (protoAt 2) 0 3 ++ List.replicate 59 0)) 1 8
      = some (false, receiverWith (capture (protoAt 2) 0 3 ++ List.replicate 59 0)) := by
    rw [receiveProtocol_eq_steps]; decide
  have a3 : receiveProtocol (receiverWith (capture (protoAt 2) 0 3 ++ List.replicate 59 0)) 2 8
      = some (true, { receiverWith (capture (protoAt 2) 0 3 ++ List.replicate 59 0) with
          nReceivedValue := 0
          nReceivedBitlength := 3
          nReceivedDelay := 710
          nReceivedProtocol := 2 }) := by
    rw [receiveProtocol_eq_steps]; decide
  have a6 : receiveProtocol (receiverWith (capture (protoAt 5) 7 3 ++ List.replicate 59 0)) 1 8
      = some (true, { receiverWith (capture (protoAt 5) 7 3 ++ List.replicate 59 0) with
          nReceivedValue := 0
          nReceivedBitlength := 3
          nReceivedDelay := 333
          nReceivedProtocol := 1 }) := by
    rw [receiveProtocol_eq_steps]; decide
  rw [show numProto = 6 from rfl]
  exact ⟨by rw [tryProtocols_reject _ 5 1 _ r5, tryProtocols_accept _ 4 2 _ _ a5],
    by rw [tryProtocols_reject _ 5 1 _ r3, tryProtocols_accept _ 4 2 _ _ a3],
    by rw [tryProtocols_accept _ 5 1 _ _ a6]⟩

/-! ### The gap test on 16 bits -/

/-- For `changeCount` in 1..7 and a buffer of 67 slots the protocol loop of
the handler tries all six protocols and leaves the globals unchanged. -/
theorem tryProtocols_short (s : State) (c : Nat)
    (hlen : s.timings.length = RCSWITCH_MAX_CHANGES) (hc : 1 ≤ c ∧ c ≤ 7) :
    tryProtocols c numProto 1 s = some s := by
  rw [show numProto = 6 from rfl,
    tryProtocols_reject _ 5 1 s (receiveProtocol_short s 1 c (by decide) hlen hc),
    tryProtocols_reject _ 4 2 s (receiveProtocol_short s 2 c (by decide) hlen hc),
    tryProtocols_reject _ 3 3 s (receiveProtocol_short s 3 c (by decide) hlen hc),
    tryProtocols_reject _ 2 4 s (receiveProtocol_short s 4 c (by decide) hlen hc),
    tryProtocols_reject _ 1 5 s (receiveProtocol_short s 5 c (by decide) hlen hc),
    tryProtocols_reject _ 0 6 s (receiveProtocol_short s 6 c (by decide) hlen hc)]
  rfl

/-- A run of the handler on a sequence of edges followed by one more edge. -/
theorem runEdges_snoc (d : Nat) : ∀ (ds : List Nat) (h h1 h2 : Isr) (es : List EdgeLog)
    (e : EdgeLog), runEdges h ds = some (h1, es) → handleEdge h1 d = some (h2, e) →
    runEdges h (ds ++ [d]) = some (h2, es ++ [e]) := by
  intro ds
  induction ds with
  | nil =>
    intro h h1 h2 es e hr he
    simp only [runEdges, Option.some.injEq, Prod.mk.injEq] at hr
    obtain ⟨rfl, rfl⟩ := hr
    simp only [List.nil_append, runEdges, he]
  | cons a as ih =>
    intro h h1 h2 es e hr he
    simp only [runEdges] at hr
    split at hr
    · cases hr
    · rename_i h3 e3 h3eq
      split at hr
      · cases hr
      · rename_i h4 es4 h4eq
        simp only [Option.some.injEq, Prod.mk.injEq] at hr
        obtain ⟨rfl, rfl⟩ := hr
        have hrec := ih h3 h4 h2 es4 e h4eq he
        rw [List.cons_append]
        simp only [runEdges, h3eq, hrec, List.cons_append]

end RCSwitch
